import Mathlib

/-!
Shallow embedding of the DiaGuru scheduling core
(`supabase/functions/schedule-capture/scheduling-core.ts` and the overlap
gate of `supabase/functions/schedule-capture/index.ts`).

Conventions of the embedding:
* JS `Date` instants are integers: milliseconds since the Unix epoch (`ℤ`).
* JS `number` fields holding minute counts are `ℤ`; fractional configuration
  knobs (overlap fraction, soft cost, priority) are `ℚ`.
* A nullable ISO-date string column is `JsDateStr`: `jnull` models SQL/JS
  `null`, `invalid s` models a non-empty string that does not parse to a
  date (`new Date(s)` is `NaN`), `valid t` models a well-formed ISO string
  denoting instant `t`.  The empty string (falsy in JS) is not modelled.
* `Math.floor`/`Math.ceil`/`Math.round` of an integer quotient are
  `jsFloorDiv`/`jsCeilDiv`/`jsRoundDiv`.
* The host runtime's timezone is UTC (Supabase edge functions), so the
  source's `Date.setHours`/`getHours` coincide with the UTC accessors.
* An IANA timezone (consulted through `Intl.DateTimeFormat` in the source)
  is modelled as its offset function `offsetAt : ℤ → ℤ` (minutes east of
  UTC at a given instant), exactly the value the source's
  `getTimezoneOffsetMinutes` computes.
-/

/-- `Math.floor(a / b)` for integers.  Every division in the embedded code
has a positive divisor, where Lean's `Int` division (E-division) coincides
with floor division. -/
def jsFloorDiv (a b : ℤ) : ℤ := a / b

/-- `Math.ceil(a / b)` for integers, `b > 0`. -/
def jsCeilDiv (a b : ℤ) : ℤ := -((-a) / b)

/-- `Math.round(a / b)` for integers, `b > 0`; JS rounds half-up
(`Math.round x = Math.floor (x + 1/2)`). -/
def jsRoundDiv (a b : ℤ) : ℤ := (2 * a + b) / (2 * b)

/-- Milliseconds per minute. -/
def msPerMin : ℤ := 60000

/-- Milliseconds per day. -/
def msPerDay : ℤ := 86400000

/-- Day count from civil date (proleptic Gregorian, days since 1970-01-01);
mirrors the arithmetic of JS `Date.UTC` (which also normalises an
out-of-range day-of-month linearly). -/
def daysFromCivil (y m d : ℤ) : ℤ :=
  let y' := if m ≤ 2 then y - 1 else y
  let era := y' / 400
  let yoe := y' - era * 400
  let doy := (153 * (m + (if 2 < m then -3 else 9)) + 2) / 5 + d - 1
  let doe := yoe * 365 + yoe / 4 - yoe / 100 + doy
  era * 146097 + doe - 719468

/-- Civil date `(year, month, day)` from a day count (inverse of
`daysFromCivil`); mirrors what JS `Date#getUTC{FullYear,Month,Date}`
exposes. -/
def civilFromDays (z : ℤ) : ℤ × ℤ × ℤ :=
  let z' := z + 719468
  let era := z' / 146097
  let doe := z' - era * 146097
  let yoe := (doe - doe / 1460 + doe / 36524 - doe / 146096) / 365
  let y := yoe + era * 400
  let doy := doe - (365 * yoe + yoe / 4 - yoe / 100)
  let mp := (5 * doy + 2) / 153
  let d := doy - (153 * mp + 2) / 5 + 1
  let m := mp + (if mp < 10 then 3 else -9)
  (if m ≤ 2 then y + 1 else y, m, d)

/-- `Date.UTC(y, m-1, d, hh, mm)` in milliseconds (month here 1-based). -/
def dateUTC (y m d hh mm : ℤ) : ℤ :=
  daysFromCivil y m d * msPerDay + hh * 3600000 + mm * msPerMin

/-- A nullable date-string column: SQL `null`, a non-empty unparseable
string, or a well-formed ISO string denoting instant `t` (ms). -/
inductive JsDateStr where
  | jnull : JsDateStr
  | invalid : JsDateStr
  | valid : ℤ → JsDateStr
deriving DecidableEq, Repr

/-- JS truthiness of a `string | null` date field (a non-empty string is
truthy; `null` is falsy). -/
def JsDateStr.truthy : JsDateStr → Bool
  | .jnull => false
  | .invalid => true
  | .valid _ => true

/-- Source `parseIsoDate`: `null` for `null` input or an unparseable
string, otherwise the parsed instant. -/
def parseIsoDate : JsDateStr → Option ℤ
  | .jnull => none
  | .invalid => none
  | .valid t => some t

/-- JS `a ?? b` on nullable date-string fields (only `null` falls
through). -/
def JsDateStr.orElse : JsDateStr → JsDateStr → JsDateStr
  | .jnull, b => b
  | a, _ => a

/-- Row of `capture_entries` restricted to the columns the scheduling core
reads.  `scheduling_notes` is kept as its narrow typed projection
`notesCannotOverlap` (the parsed `flexibility.cannot_overlap` JSON field;
`none` for absent or malformed notes). -/
structure Capture where
  id : String
  content : Option String
  estimated_minutes : Option ℤ
  min_chunk_minutes : Option ℤ
  max_splits : Option ℤ
  blocking : Bool
  start_flexibility : Option String
  duration_flexibility : Option String
  cannot_overlap : Option Bool
  notesCannotOverlap : Option Bool
  constraint_type : Option String
  constraint_time : JsDateStr
  constraint_end : JsDateStr
  constraint_date : JsDateStr
  original_target_time : JsDateStr
  deadline_at : JsDateStr
  window_start : JsDateStr
  window_end : JsDateStr
  start_target_at : JsDateStr
  task_type_hint : Option String
  extraction_kind : Option String
  time_pref_day : Option String
  time_pref_time_of_day : Option String
  manual_touch_at : Option String
  freeze_until : Option String
deriving DecidableEq, Repr

/-- Source constant `SLOT_INCREMENT_MINUTES`. -/
def SLOT_INCREMENT_MINUTES : ℤ := 15

/-- Source constant `DEFAULT_MIN_CHUNK_MINUTES` (= slot increment). -/
def DEFAULT_MIN_CHUNK_MINUTES : ℤ := SLOT_INCREMENT_MINUTES

/-- Source constant `BUFFER_MINUTES`. -/
def BUFFER_MINUTES : ℤ := 10

/-- Source constant `DAY_END_HOUR`. -/
def DAY_END_HOUR : ℤ := 22

/-- Modelled from the spec: `TARGET_CHUNK_MINUTES` is read from
`scheduler-config.ts` (`schedulerConfig.chunking.targetChunkMinutes`),
which is absent from the sources; the spec gives the default 50 min.
The chunking theorems are proved for every value of this constant. -/
def TARGET_CHUNK_MINUTES : ℤ := 50

/-- Source `roundUpToIncrement`. -/
def roundUpToIncrement (value increment : ℤ) : ℤ :=
  if increment ≤ 0 then value else jsCeilDiv value increment * increment

/-- The `while (chunkCount > 1 && floor(total/chunkCount) < minChunk)`
loop of `generateChunkDurations`, decrementing the chunk count.  The loop
runs at most `c - 1` times; it is rendered with a structural fuel
argument (the caller passes `c.toNat`, which dominates that bound, so the
fuel never runs out before the loop condition fails). -/
def shrinkChunkCount (totalIncrements minChunkIncrements : ℤ) : ℕ → ℤ → ℤ
  | 0, c => c
  | fuel + 1, c =>
      if 1 < c ∧ totalIncrements / c < minChunkIncrements then
        shrinkChunkCount totalIncrements minChunkIncrements fuel (c - 1)
      else c

/-- The remainder-distribution loop of `generateChunkDurations`: add one
increment to the chunk at `cursor % length`, advancing `cursor`,
`remainder` times. -/
def distributeRemainder (l : List ℤ) (cursor : ℕ) : ℕ → List ℤ
  | 0 => l
  | r + 1 =>
      let i := cursor % l.length
      distributeRemainder (l.set i (l.getD i 0 + 1)) (cursor + 1) r

/-- The multi-chunk tail of `generateChunkDurations` (everything after
the `cappedChunks` early return), in increments of 15 minutes: pick the
chunk count, divide evenly, distribute the remainder. -/
def chunkSplit (totalIncrements minChunkIncrements targetChunkIncrements
    cappedChunks : ℤ) : List ℤ :=
  let roughCount := jsCeilDiv totalIncrements targetChunkIncrements
  let chunkCount0 := max 1 (min cappedChunks roughCount)
  let chunkCount :=
    shrinkChunkCount totalIncrements minChunkIncrements chunkCount0.toNat chunkCount0
  let baseIncrements := totalIncrements / chunkCount
  let remainder := totalIncrements - baseIncrements * chunkCount
  let chunkIncrements :=
    (List.replicate chunkCount.toNat baseIncrements).map (fun v => max v minChunkIncrements)
  distributeRemainder chunkIncrements 0 remainder.toNat

/-- Source `generateChunkDurations`, with the module-level
`TARGET_CHUNK_MINUTES` made an explicit first argument (see the constant's
doc). -/
def generateChunkDurations (targetChunkMinutes : ℤ) (totalMinutes0 : ℤ)
    (minChunkMinutes0 : Option ℤ) (maxSplits : Option ℤ) (allowSplitting : Bool) : List ℤ :=
  let increment := SLOT_INCREMENT_MINUTES
  let totalMinutes := max increment (roundUpToIncrement totalMinutes0 increment)
  if !allowSplitting then [totalMinutes] else
  let minChunkMinutes :=
    max increment (roundUpToIncrement (minChunkMinutes0.getD DEFAULT_MIN_CHUNK_MINUTES) increment)
  let totalIncrements := max 1 (jsCeilDiv totalMinutes increment)
  let minChunkIncrements := max 1 (jsCeilDiv minChunkMinutes increment)
  let targetChunkIncrements :=
    max minChunkIncrements (jsCeilDiv targetChunkMinutes increment)
  let maxChunksFromDuration := totalIncrements / minChunkIncrements
  if maxChunksFromDuration ≤ 1 then [totalMinutes] else
  let cappedChunks :=
    match maxSplits with
    | some k => if 0 < k then min maxChunksFromDuration (max 1 k) else maxChunksFromDuration
    | none => maxChunksFromDuration
  if cappedChunks ≤ 1 then [totalMinutes] else
  (chunkSplit totalIncrements minChunkIncrements targetChunkIncrements cappedChunks).map
    (fun v => v * increment)

/-- A candidate placement: source type `PreferredSlot` (`start`/`end`
`Date`s; `end` is a reserved word in Lean, rendered `stop`). -/
structure Slot where
  start : ℤ
  stop : ℤ
deriving DecidableEq, Repr

/-- Source `addMinutes`. -/
def addMinutes (t minutes : ℤ) : ℤ := t + minutes * msPerMin

/-- A row of `capture_chunks` as built in memory: source type
`ChunkRecord` (`end` rendered `stop`). -/
structure ChunkRec where
  start : ℤ
  stop : ℤ
  prime : Bool
  late : Bool
  overlapped : Bool
deriving DecidableEq, Repr

/-- The optional `{ late?, overlapped?, prime? }` argument of
`buildChunksForSlot`. -/
structure ChunkOpts where
  late : Option Bool
  overlapped : Option Bool
  prime : Option Bool
deriving DecidableEq, Repr

/-- One chunk record with the option defaults of `buildChunksForSlot`
(`prime ?? true`, `late ?? false`, `overlapped ?? false`). -/
def mkChunk (opts : ChunkOpts) (s e : ℤ) : ChunkRec :=
  ⟨s, e, opts.prime.getD true, opts.late.getD false, opts.overlapped.getD false⟩

/-- The chunk-emitting loop of `buildChunksForSlot`.  On the last duration
the chunk end is forced to the slot end; a chunk that would be empty stops
the loop (`break`), as does reaching the slot end. -/
def buildChunkLoop (opts : ChunkOpts) (slotEnd : ℤ) (cursor : ℤ) :
    List ℤ → List ChunkRec
  | [] => []
  | [_] => if slotEnd ≤ cursor then [] else [mkChunk opts cursor slotEnd]
  | minutes :: rest =>
      let e0 := addMinutes cursor minutes
      let e := if slotEnd < e0 then slotEnd else e0
      if e ≤ cursor then []
      else
        mkChunk opts cursor e ::
          (if slotEnd ≤ e then [] else buildChunkLoop opts slotEnd e rest)

/-- The final fix-up of `buildChunksForSlot`: force the last record's end
to the slot end. -/
def setLastStop (slotEnd : ℤ) : List ChunkRec → List ChunkRec
  | [] => []
  | [c] => [{ c with stop := slotEnd }]
  | c :: rest => c :: setLastStop slotEnd rest

/-- Source `buildChunksForSlot`. -/
def buildChunksForSlot (capture : Capture) (slot : Slot) (opts : ChunkOpts) :
    List ChunkRec :=
  let slotMinutes :=
    max SLOT_INCREMENT_MINUTES (max 1 (jsRoundDiv (slot.stop - slot.start) msPerMin))
  let durations := generateChunkDurations TARGET_CHUNK_MINUTES slotMinutes
    (some (capture.min_chunk_minutes.getD DEFAULT_MIN_CHUNK_MINUTES))
    capture.max_splits
    (capture.duration_flexibility = some "split_allowed")
  if durations = [] then [mkChunk opts slot.start slot.stop]
  else
    let records := buildChunkLoop opts slot.stop slot.start durations
    if records = [] then [mkChunk opts slot.start slot.stop]
    else setLastStop slot.stop records

/-- Source `normalizeConstraintType`. -/
def normalizeConstraintType (value : Option String) : String :=
  match value with
  | none => "flexible"
  | some v =>
      if v = "deadline_time" ∨ v = "deadline_date" ∨ v = "start_time" ∨ v = "window" then v
      else if v = "deadline" ∨ v = "end_time" then "deadline_time"
      else "flexible"

/-- Source `toLocalDate` (shift an instant by a fixed offset in minutes). -/
def toLocalDate (t offsetMinutes : ℤ) : ℤ := t + offsetMinutes * msPerMin

/-- Source `toUtcDate`. -/
def toUtcDate (t offsetMinutes : ℤ) : ℤ := t - offsetMinutes * msPerMin

/-- Source `computeDateDeadline`: parse `constraint_date` as midnight UTC,
shift to local, snap to 22:00 of that civil day (the host runtime is UTC,
so `setHours` is `setUTCHours`), and shift back. -/
def computeDateDeadline (dateInput : JsDateStr) (offsetMinutes : ℤ) : Option ℤ :=
  match dateInput with
  | .jnull => none
  | .invalid => none
  | .valid base =>
      let localBase := toLocalDate base offsetMinutes
      let dayStart := localBase / msPerDay * msPerDay
      some (toUtcDate (dayStart + DAY_END_HOUR * 3600000) offsetMinutes)

/-- Source `DEADLINE_RULES`: the per-constraint-kind deadline strategy
table (`Record<string, DeadlineStrategy>`); a missing key is `none`. -/
def deadlineRules (key : String) : Option (Capture → ℤ → JsDateStr) :=
  if key = "deadline_time" then some (fun c _ => c.constraint_time)
  else if key = "deadline" then some (fun c _ => c.constraint_time)
  else if key = "end_time" then some (fun c _ => c.constraint_time)
  else if key = "deadline_date" then
    some (fun c offsetMinutes =>
      match computeDateDeadline c.constraint_date offsetMinutes with
      | some t => .valid t
      | none => .jnull)
  else if key = "window" then some (fun c _ => c.constraint_end)
  else if key = "start_time" then some (fun _ _ => .jnull)
  else none

/-- Source `resolveDeadlineFromCapture`. -/
def resolveDeadlineFromCapture (c : Capture) (offsetMinutes : ℤ) : Option ℤ :=
  if c.deadline_at.truthy then parseIsoDate c.deadline_at
  else
    match deadlineRules (normalizeConstraintType c.constraint_type) with
    | none => none
    | some strategy =>
        let iso := strategy c offsetMinutes
        if iso.truthy then parseIsoDate iso else none

/-- The `mode` discriminant of a `SchedulingPlan`. -/
inductive PlanMode where
  | flexible
  | deadline
  | window
  | start
deriving DecidableEq, Repr

/-- Source type `SchedulingPlan`. -/
structure SchedulingPlan where
  mode : PlanMode
  preferredSlot : Option Slot
  deadline : Option ℤ
  window : Option Slot
deriving DecidableEq, Repr

/-- The `mode: "flexible"` plan returned by every fall-through path of
`computeSchedulingPlan`. -/
def flexiblePlan : SchedulingPlan := ⟨.flexible, none, none, none⟩

/-- JS `a ?? b` on two already-parsed optional dates. -/
def jsOptOr (a b : Option ℤ) : Option ℤ :=
  match a with
  | some x => some x
  | none => b

/-- Source `computeSchedulingPlan`.  The early-return cascade is rendered
as nested conditionals sharing the later branches. -/
def computeSchedulingPlan (c : Capture)
    (durationMinutes offsetMinutes referenceNow : ℤ) : SchedulingPlan :=
  let constraintType := normalizeConstraintType c.constraint_type
  let durationMs := durationMinutes * msPerMin
  let windowOrFlex : SchedulingPlan :=
    if constraintType = "window" then
      match parseIsoDate c.constraint_time, parseIsoDate c.constraint_end with
      | some windowStart, some windowEnd =>
          if windowStart < windowEnd then ⟨.window, none, none, some ⟨windowStart, windowEnd⟩⟩
          else flexiblePlan
      | _, _ => flexiblePlan
    else flexiblePlan
  let startOrRest : SchedulingPlan :=
    if constraintType = "start_time" then
      match jsOptOr (parseIsoDate c.constraint_time) (parseIsoDate c.original_target_time) with
      | some targetStart =>
          let start := max targetStart referenceNow
          ⟨.start, some ⟨start, start + durationMs⟩, none, none⟩
      | none => windowOrFlex
    else windowOrFlex
  if constraintType = "deadline_time" ∨ constraintType = "deadline_date" then
    match resolveDeadlineFromCapture c offsetMinutes with
    | some deadline => ⟨.deadline, none, some deadline, none⟩
    | none => startOrRest
  else startOrRest

/-- Source `parsePreferredSlot`.  `startIso` is a `string` argument, so
the `jnull` constructor does not arise for it; `endIso` is
`string | null`. -/
def parsePreferredSlot (startIso : JsDateStr) (endIso : Option JsDateStr)
    (fallbackMinutes : ℤ) : Option Slot :=
  match parseIsoDate startIso with
  | none => none
  | some start =>
      let end0 : Option ℤ :=
        match endIso with
        | some e => parseIsoDate e
        | none => none
      let end1 : ℤ :=
        match end0 with
        | some e => e
        | none => addMinutes start fallbackMinutes
      let end2 : ℤ :=
        if end1 ≤ start then addMinutes start (max fallbackMinutes 5) else end1
      some ⟨start, end2⟩

/-- An IANA timezone, modelled by the offset (minutes east of UTC) it
assigns to each absolute instant — the value the source reads off
`Intl.DateTimeFormat` via `getTimezoneOffsetMinutes`. -/
structure Timezone where
  offsetAt : ℤ → ℤ

/-- The local wall-clock milliseconds of an instant in a timezone. -/
def localMs (tz : Timezone) (t : ℤ) : ℤ := t + tz.offsetAt t * msPerMin

/-- Source `getLocalDateParts` (the formatter's year/month/day of the
reference instant in the timezone). -/
def getLocalDateParts (tz : Timezone) (reference : ℤ) : ℤ × ℤ × ℤ :=
  civilFromDays (localMs tz reference / msPerDay)

/-- Source `getLocalTimeParts` (the formatter's hour/minute). -/
def getLocalTimeParts (tz : Timezone) (reference : ℤ) : ℤ × ℤ :=
  let tod := localMs tz reference % msPerDay
  (tod / 3600000, tod % 3600000 / msPerMin)

/-- Source `computeDayOffset`: advance one day when the reference's local
time is already at or past the target wall time. -/
def computeDayOffset (tz : Timezone) (reference targetHour targetMinute : ℤ) : ℤ :=
  let hm := getLocalTimeParts tz reference
  if targetHour < hm.1 then 1
  else if hm.1 = targetHour ∧ targetMinute ≤ hm.2 then 1
  else 0

/-- Source `buildZonedDateTime` (returns the instant, where the source
returns its ISO string). -/
def buildZonedDateTime (tz : Timezone) (reference : ℤ) (hour minute : ℤ)
    (dayOffset : Option ℤ) : ℤ :=
  let dOff := dayOffset.getD (computeDayOffset tz reference hour minute)
  let p := getLocalDateParts tz reference
  let utcGuess := dateUTC p.1 p.2.1 (p.2.2 + dOff) hour minute
  utcGuess - tz.offsetAt utcGuess * msPerMin

/-- Source `isRoutineKind`. -/
def isRoutineKind (kind : Option String) : Bool :=
  match kind with
  | none => false
  | some k => k.startsWith "routine."

/-- Source `resolveSleepBaseReference`. -/
def resolveSleepBaseReference (c : Capture) (referenceNow : ℤ) : ℤ :=
  match (if c.start_target_at.truthy then parseIsoDate c.start_target_at else none) with
  | some t => t
  | none =>
      match (if c.original_target_time.truthy then parseIsoDate c.original_target_time
             else none) with
      | some t => t
      | none =>
          let dayOffset : ℤ := if c.time_pref_day = some "tomorrow" then 1 else 0
          referenceNow + dayOffset * msPerDay

/-- Source `normalizeRoutineCapture` (the `options.timezone ?? "UTC"`
defaulting happens at the call boundary; the console logging and the
sleep branch's `try`/`catch` are elided — `buildZonedDateTime` is total
here). -/
def normalizeRoutineCapture (tz : Timezone) (referenceNow : ℤ) (c : Capture) : Capture :=
  let isSleep :=
    c.task_type_hint = some "routine.sleep" ∨ c.extraction_kind = some "routine.sleep"
  let isMeal :=
    c.task_type_hint = some "routine.meal" ∨ c.extraction_kind = some "routine.meal"
  let isRoutine := isSleep ∨ isMeal ∨ isRoutineKind c.task_type_hint
  if ¬isRoutine then c
  else
    let userLocked := c.manual_touch_at.isSome ∨ c.freeze_until.isSome
    if isSleep then
      let baseRef := resolveSleepBaseReference c referenceNow
      let nightStart := buildZonedDateTime tz baseRef 22 0 none
      let nextDayRef := baseRef + msPerDay
      let nightEnd := buildZonedDateTime tz nextDayRef 7 30 none
      let c1 := { c with
        constraint_type := some "window",
        window_start := JsDateStr.valid nightStart,
        window_end := JsDateStr.valid nightEnd,
        constraint_time := JsDateStr.valid nightStart,
        constraint_end := JsDateStr.valid nightEnd }
      let c2 := { c1 with deadline_at := c1.deadline_at.orElse c1.window_end }
      let c3 := { c2 with
        start_flexibility := some "soft",
        duration_flexibility := some "fixed",
        cannot_overlap := some true,
        time_pref_time_of_day := some (c2.time_pref_time_of_day.getD "night") }
      if ¬userLocked then { c3 with freeze_until := none } else c3
    else if isMeal then
      let c1 :=
        if ¬c.window_start.truthy ∨ ¬c.window_end.truthy then
          let localMealStart := buildZonedDateTime tz referenceNow 12 0 none
          let localMealEnd := buildZonedDateTime tz referenceNow 14 0 none
          { c with
            window_start := JsDateStr.valid localMealStart,
            window_end := JsDateStr.valid localMealEnd,
            constraint_type := some "window",
            constraint_time := JsDateStr.valid localMealStart,
            constraint_end := JsDateStr.valid localMealEnd }
        else c
      let c2 := { c1 with
        start_flexibility := some (c1.start_flexibility.getD "soft"),
        duration_flexibility := some (c1.duration_flexibility.getD "fixed"),
        cannot_overlap := some (c1.cannot_overlap.getD false) }
      if ¬userLocked then { c2 with freeze_until := none } else c2
    else c

/-- A buffered busy interval (half-open `[start, stop)`; source uses
`{start: Date, end: Date}`, `end` rendered `stop`). -/
structure BusyInterval where
  start : ℤ
  stop : ℤ
deriving DecidableEq, Repr

/-- One endpoint of a calendar event: absent, a parseable `dateTime`, or a
parseable all-day `date` (read as `${date}T00:00:00Z`).  Endpoint strings
that parse to `NaN` dates are outside the model (the source would carry
the `NaN` through its arithmetic). -/
inductive EventDate where
  | absent : EventDate
  | dt : ℤ → EventDate
  | allDay : ℤ → EventDate
deriving DecidableEq, Repr

/-- A calendar event restricted to the fields `computeBusyIntervals`
reads. -/
structure CalendarEvent where
  id : String
  start : EventDate
  stop : EventDate
deriving DecidableEq, Repr

/-- Source `parseEventDate`. -/
def parseEventDate : EventDate → Option ℤ
  | .absent => none
  | .dt t => some t
  | .allDay t => some t

/-- The `intervals.sort((a, b) => a.start - b.start)` step.  JS `sort` is
stable (ES2019), as is insertion sort on `≤`. -/
def sortByStart (l : List BusyInterval) : List BusyInterval :=
  List.insertionSort (fun a b => a.start ≤ b.start) l

/-- Source `computeBusyIntervals`. -/
def computeBusyIntervals (events : List CalendarEvent) (bufferMinutes : ℤ) :
    List BusyInterval :=
  sortByStart (events.filterMap fun event =>
    match parseEventDate event.start, parseEventDate event.stop with
    | some s, some e =>
        some ⟨addMinutes s (-bufferMinutes), addMinutes e bufferMinutes⟩
    | _, _ => none)

/-- Occupancy status of a 15-minute grid cell. -/
inductive OccStatus where
  | free
  | external
  | diaguru
deriving DecidableEq, Repr

/-- Source type `OccupancySlot` (`end` rendered `stop`). -/
structure OccupancySlot where
  start : ℤ
  stop : ℤ
  status : OccStatus
  eventId : Option String
  captureId : Option String
deriving DecidableEq, Repr

/-- Placeholder cell for out-of-range indexing (never reached on the
index ranges the callers establish). -/
def dummyOccSlot : OccupancySlot := ⟨0, 0, .free, none, none⟩

/-- Source type `OccupancyGrid` restricted to the fields
`collectGridWindowCandidates` reads (`stats`/`days` summaries omitted). -/
structure OccupancyGrid where
  start : ℤ
  stop : ℤ
  slotMinutes : ℤ
  slots : List OccupancySlot
deriving DecidableEq, Repr

/-- Lookup in an insertion-ordered association list (JS `Map.get`). -/
def mapGet (m : List (String × ℤ)) (k : String) : Option ℤ :=
  match m with
  | [] => none
  | p :: rest => if p.1 = k then some p.2 else mapGet rest k

/-- Update in an insertion-ordered association list (JS `Map.set`):
overwrite in place, else append. -/
def mapSet (m : List (String × ℤ)) (k : String) (v : ℤ) : List (String × ℤ) :=
  match m with
  | [] => [(k, v)]
  | p :: rest => if p.1 = k then (k, v) :: rest else p :: mapSet rest k v

/-- The stats block of a `GridWindowCandidate`; `diaguruBreakdown` is the
JS `Map` as an insertion-ordered association list. -/
structure GridWindowStats where
  totalMinutes : ℤ
  freeMinutes : ℤ
  diaguruMinutes : ℤ
  externalMinutes : ℤ
  diaguruBreakdown : List (String × ℤ)
  diaguruCount : ℕ
deriving DecidableEq, Repr

/-- Source type `GridWindowCandidate`. -/
structure GridWindowCandidate where
  slot : Slot
  stats : GridWindowStats
  hasExternal : Bool
deriving DecidableEq, Repr

/-- Accumulator of `analyzeGridWindow`'s cell loop. -/
structure StatsAcc where
  freeM : ℤ
  diagM : ℤ
  extM : ℤ
  bd : List (String × ℤ)
deriving DecidableEq, Repr

/-- One iteration of `analyzeGridWindow`'s loop over the window cells. -/
def statStep (slotMinutes : ℤ) (acc : StatsAcc) (slot : OccupancySlot) : StatsAcc :=
  match slot.status with
  | .free => { acc with freeM := acc.freeM + slotMinutes }
  | .diaguru =>
      let bd :=
        match slot.captureId with
        | some cid => mapSet acc.bd cid ((mapGet acc.bd cid).getD 0 + slotMinutes)
        | none => acc.bd
      { acc with diagM := acc.diagM + slotMinutes, bd := bd }
  | .external => { acc with extM := acc.extM + slotMinutes }

/-- Source `analyzeGridWindow`.  The `if (!slot) break` guard of the
source corresponds to the window list simply ending at the slots list's
end (`drop`/`take`). -/
def analyzeGridWindow (slots : List OccupancySlot) (startIndex size : ℕ)
    (slotMinutes : ℤ) : GridWindowCandidate :=
  let window := (slots.drop startIndex).take size
  let a := window.foldl (statStep slotMinutes) ⟨0, 0, 0, []⟩
  let startSlot := slots.getD startIndex dummyOccSlot
  let endSlot := slots.getD (startIndex + size - 1) dummyOccSlot
  let totalMinutes := a.freeM + a.diagM + a.extM
  { slot := ⟨startSlot.start, endSlot.stop⟩,
    stats := ⟨totalMinutes, a.freeM, a.diagM, a.extM, a.bd, a.bd.length⟩,
    hasExternal := decide (0 < a.extM) }

/-- The scan loop of `collectGridWindowCandidates` over start indices
(`continue` below the range start, `break` past the slots list or the
range end, `break` after pushing once the `limit` is reached; a `limit`
of `0` is falsy in JS and imposes no cap). -/
def collectLoop (slots : List OccupancySlot) (rangeStart rangeEnd : ℤ)
    (needed : ℕ) (slotMin : ℤ) (limit : Option ℕ) :
    ℕ → ℕ → ℕ → List GridWindowCandidate
  | 0, _, _ => []
  | fuel + 1, i, accLen =>
      if slots.length ≤ i then []
      else
        let slot := slots.getD i dummyOccSlot
        if slot.start < rangeStart then
          collectLoop slots rangeStart rangeEnd needed slotMin limit fuel (i + 1) accLen
        else
          let lastIndex := i + needed - 1
          if slots.length ≤ lastIndex then []
          else
            let lastSlot := slots.getD lastIndex dummyOccSlot
            if rangeEnd < lastSlot.stop then []
            else
              let cand := analyzeGridWindow slots i needed slotMin
              let hitLimit :=
                match limit with
                | some l => decide (l ≠ 0 ∧ l ≤ accLen + 1)
                | none => false
              if hitLimit then [cand]
              else cand ::
                collectLoop slots rangeStart rangeEnd needed slotMin limit fuel
                  (i + 1) (accLen + 1)

/-- Source `collectGridWindowCandidates`. -/
def collectGridWindowCandidates (grid : OccupancyGrid) (durationMinutes : ℤ)
    (windowStart windowEnd : Option ℤ) (referenceNow : ℤ) (limit : Option ℕ) :
    List GridWindowCandidate :=
  let slotMinutes := max 1 grid.slotMinutes
  let slotsNeeded := (max 1 (jsCeilDiv durationMinutes slotMinutes)).toNat
  if grid.slots.length = 0 then []
  else
    let rangeStart := max (max grid.start referenceNow) (windowStart.getD grid.start)
    let rangeEnd := min grid.stop (windowEnd.getD grid.stop)
    if rangeEnd ≤ rangeStart then []
    else
      collectLoop grid.slots rangeStart rangeEnd slotsNeeded slotMinutes limit
        grid.slots.length 0 0

/-- Number of cells of a given status in a window. -/
def countStatus (st : OccStatus) (w : List OccupancySlot) : ℕ :=
  w.countP (fun s => decide (s.status = st))

/-- Number of diaguru cells owned by a given capture in a window. -/
def countDia (cid : String) (w : List OccupancySlot) : ℕ :=
  w.countP (fun s => decide (s.status = OccStatus.diaguru ∧ s.captureId = some cid))

/-- Number of consecutive grid cells a candidate spans:
`max(1, ceil(durationMinutes / slotMinutes))` with the slot minutes
floored at 1, as computed by `collectGridWindowCandidates`. -/
def gridSlotsNeeded (grid : OccupancyGrid) (durationMinutes : ℤ) : ℕ :=
  (max 1 (jsCeilDiv durationMinutes (max 1 grid.slotMinutes))).toNat

/-- The cells of the candidate window starting at index `i`. -/
def gridWindowCells (grid : OccupancyGrid) (durationMinutes : ℤ) (i : ℕ) :
    List OccupancySlot :=
  (grid.slots.drop i).take (gridSlotsNeeded grid durationMinutes)

/-- Characterisation of a candidate returned by
`collectGridWindowCandidates`: it spans `gridSlotsNeeded` consecutive
cells inside the slot list, starting at or after
`max(grid.start, referenceNow, windowStart)` and ending at or before
`min(grid.end, windowEnd)`; its stats count `slotMinutes` per cell of
each status, with a per-capture breakdown of the diaguru cells; the
external flag is set exactly when external minutes are positive (no
candidate is filtered out for containing external cells). -/
def GridCandidateSpec (grid : OccupancyGrid) (durationMinutes : ℤ)
    (windowStart windowEnd : Option ℤ) (referenceNow : ℤ)
    (cand : GridWindowCandidate) : Prop :=
  ∃ i : ℕ,
    i + gridSlotsNeeded grid durationMinutes ≤ grid.slots.length ∧
    cand.slot.start = (grid.slots.getD i dummyOccSlot).start ∧
    cand.slot.stop =
      (grid.slots.getD (i + gridSlotsNeeded grid durationMinutes - 1)
        dummyOccSlot).stop ∧
    max (max grid.start referenceNow) (windowStart.getD grid.start) ≤
      cand.slot.start ∧
    cand.slot.stop ≤ min grid.stop (windowEnd.getD grid.stop) ∧
    cand.stats.freeMinutes = max 1 grid.slotMinutes *
      (countStatus OccStatus.free (gridWindowCells grid durationMinutes i) : ℤ) ∧
    cand.stats.diaguruMinutes = max 1 grid.slotMinutes *
      (countStatus OccStatus.diaguru (gridWindowCells grid durationMinutes i) : ℤ) ∧
    cand.stats.externalMinutes = max 1 grid.slotMinutes *
      (countStatus OccStatus.external (gridWindowCells grid durationMinutes i) : ℤ) ∧
    cand.stats.totalMinutes =
      cand.stats.freeMinutes + cand.stats.diaguruMinutes +
        cand.stats.externalMinutes ∧
    (∀ cid : String,
      mapGet cand.stats.diaguruBreakdown cid =
        (if countDia cid (gridWindowCells grid durationMinutes i) = 0 then none
        else some (max 1 grid.slotMinutes *
          (countDia cid (gridWindowCells grid durationMinutes i) : ℤ)))) ∧
    cand.hasExternal = decide (0 < cand.stats.externalMinutes)

/-- Modelled from the spec: `schedulerConfig.overlap` lives in
`scheduler-config.ts`, which is absent from the sources; the spec lists
its knobs `{maxConcurrency, perTaskOverlapFraction, dailyBudgetMinutes,
softCostPerMinute, enabled}` without concrete values, so the overlap
theorems quantify over this record. -/
structure OverlapConfig where
  enabled : Bool
  maxConcurrency : ℤ
  perTaskOverlapFraction : ℚ
  dailyBudgetMinutes : ℤ
  softCostPerMinute : ℚ
deriving DecidableEq, Repr

/-- Source `readCannotOverlapFromNotes` (on the narrow typed projection of
`scheduling_notes`). -/
def readCannotOverlapFromNotes (c : Capture) : Bool :=
  match c.cannot_overlap with
  | some b => b
  | none => c.notesCannotOverlap.getD false

/-- Source `canCaptureOverlap`. -/
def canCaptureOverlap (c : Capture) : Bool :=
  if c.blocking then false
  else if c.start_flexibility = some "hard" then false
  else if c.cannot_overlap = some true then false
  else if readCannotOverlapFromNotes c then false
  else true

/-- Source `sanitizedEstimatedMinutes`. -/
def sanitizedEstimatedMinutes (c : Capture) : ℤ :=
  max 5 (min (c.estimated_minutes.getD 30) 480)

/-- A conflicting event restricted to the fields the overlap gate reads. -/
structure ConflictSummary where
  id : String
  captureId : Option String
deriving DecidableEq, Repr

/-- Lookup in the conflict-capture map produced by
`loadConflictCaptures`. -/
def lookupCapture (m : List (String × Capture)) (k : String) : Option Capture :=
  match m with
  | [] => none
  | p :: rest => if p.1 = k then some p.2 else lookupCapture rest k

/-- The per-conflict loop of `tryScheduleWithOverlap`: resolve each
conflict's capture and reject unless every one permits overlap. -/
def resolveConflictCaptures (m : List (String × Capture)) :
    List ConflictSummary → Option (List Capture)
  | [] => some []
  | conflict :: rest =>
      match conflict.captureId with
      | none => none
      | some cid =>
          match lookupCapture m cid with
          | none => none
          | some cap =>
              if canCaptureOverlap cap then
                (resolveConflictCaptures m rest).map (fun l => cap :: l)
              else none

/-- The data an overlap commit carries (for the pure guard model). -/
structure OverlapCommit where
  slotMinutes : ℤ
  conflictingCaptures : List Capture
deriving DecidableEq, Repr

/-- The pure admission gate of `tryScheduleWithOverlap`
(`index.ts` lines 1505–1580): everything up to the calendar/store
mutations, which the source only reaches when this returns a commit.
`conflictMap` stands for the rows `loadConflictCaptures` fetched,
`capturePriority` for the already-computed priority score, and
`usedMinutes` for `overlapUsage.get(dayKey) ?? 0`. -/
def tryScheduleWithOverlapDecision (cfg : OverlapConfig) (capture : Capture)
    (conflicts : List ConflictSummary) (conflictMap : List (String × Capture))
    (slot : Slot) (capturePriority : ℚ) (usedMinutes : ℤ) : Option OverlapCommit :=
  if ¬cfg.enabled then none
  else if conflicts = [] then none
  else if ¬canCaptureOverlap capture then none
  else if conflictMap = [] then none
  else if cfg.maxConcurrency < (conflicts.length : ℤ) + 1 then none
  else
    match resolveConflictCaptures conflictMap conflicts with
    | none => none
    | some conflictingCaptures =>
        let slotMinutes :=
          max SLOT_INCREMENT_MINUTES (jsRoundDiv (slot.stop - slot.start) msPerMin)
        let targetEstimate := sanitizedEstimatedMinutes capture
        let maxOverlapForTarget :=
          max SLOT_INCREMENT_MINUTES ⌊(targetEstimate : ℚ) * cfg.perTaskOverlapFraction⌋
        if maxOverlapForTarget < slotMinutes then none
        else if cfg.dailyBudgetMinutes < usedMinutes + slotMinutes then none
        else
          let targetMinutes := max 1 targetEstimate
          let overlapBenefit := capturePriority / (targetMinutes : ℚ) * (slotMinutes : ℚ)
          let overlapCost := cfg.softCostPerMinute * (slotMinutes : ℚ)
          if overlapBenefit - overlapCost ≤ 0 then none
          else some ⟨slotMinutes, conflictingCaptures⟩

/-- A capture row with every nullable column `null` and `blocking` false
(the table's boolean default); concrete scenario rows below override
individual fields. -/
def emptyCapture : Capture :=
  ⟨"cap-1", none, none, none, none, false, none, none, none, none, none,
   .jnull, .jnull, .jnull, .jnull, .jnull, .jnull, .jnull, .jnull,
   none, none, none, none, none, none⟩

/-- America/Chicago for the instants this development evaluates in it:
all fall between 2025-11-03 and 2025-11-30, where the zone is CST
(UTC-06:00, offset -360 min; DST ended 2025-11-02). -/
def chicagoNov2025 : Timezone := ⟨fun _ => -360⟩

/-- The sleep capture of spec scenario 1: `task_type_hint=routine.sleep`,
`time_pref_day=tomorrow`, no explicit targets. -/
def sleepCaptureC1 : Capture :=
  { emptyCapture with
    task_type_hint := some "routine.sleep",
    time_pref_day := some "tomorrow" }

/-- `referenceNow` of spec scenario 1: 2025-11-21T16:46:00Z. -/
def refNowC1 : ℤ := 1763743560000

/-- Deadline resolution as the code actually implements it (the amended
C3 description): `deadline_at` first (parsed, with no further fallback
even when it is unparseable); otherwise the rule for the normalized
constraint kind — `deadline_time` reads `constraint_time`,
`deadline_date` reads `constraint_date` snapped to 22:00 local,
`window` reads `constraint_end` (not `window_end`), and
`start_time`/`flexible` yield `null`.  `window_end` is never
consulted. -/
def resolveDeadlineSpec (c : Capture) (offsetMinutes : ℤ) : Option ℤ :=
  if c.deadline_at.truthy then parseIsoDate c.deadline_at
  else
    let t := normalizeConstraintType c.constraint_type
    if t = "deadline_time" then parseIsoDate c.constraint_time
    else if t = "deadline_date" then computeDateDeadline c.constraint_date offsetMinutes
    else if t = "window" then parseIsoDate c.constraint_end
    else none

/-- C3 counterexample row: no `deadline_at`, constraint kind `flexible`
(no applicable rule), `window_end` set to instant `1000`. -/
def windowEndOnlyCapture : Capture :=
  { emptyCapture with
    constraint_type := some "flexible",
    window_end := JsDateStr.valid 1000 }

/-- Plan selection as the amended C4 claim describes it, written as a
disjoint dispatch on the normalized constraint kind: `deadline_time` /
`deadline_date` with a resolvable deadline give mode `deadline`;
`start_time` with a parseable `constraint_time` (else
`original_target_time`) gives mode `start` anchored at
`max(target, now)`; `window` with parseable bounds and `end > start`
gives mode `window` with a null preferred slot; every other case is
`flexible`. -/
def computeSchedulingPlanSpec (c : Capture)
    (durationMinutes offsetMinutes referenceNow : ℤ) : SchedulingPlan :=
  let t := normalizeConstraintType c.constraint_type
  if t = "deadline_time" ∨ t = "deadline_date" then
    match resolveDeadlineFromCapture c offsetMinutes with
    | some deadline => ⟨.deadline, none, some deadline, none⟩
    | none => flexiblePlan
  else if t = "start_time" then
    match jsOptOr (parseIsoDate c.constraint_time) (parseIsoDate c.original_target_time) with
    | some targetStart =>
        let start := max targetStart referenceNow
        ⟨.start, some ⟨start, start + durationMinutes * msPerMin⟩, none, none⟩
    | none => flexiblePlan
  else if t = "window" then
    match parseIsoDate c.constraint_time, parseIsoDate c.constraint_end with
    | some windowStart, some windowEnd =>
        if windowStart < windowEnd then ⟨.window, none, none, some ⟨windowStart, windowEnd⟩⟩
        else flexiblePlan
    | _, _ => flexiblePlan
  else flexiblePlan

/-- C4 counterexample row: a `deadline_time` capture with a parseable
constraint time. -/
def deadlineModeCapture : Capture :=
  { emptyCapture with
    constraint_type := some "deadline_time",
    constraint_time := JsDateStr.valid 7200000 }

/-- The source's internal rounding of the requested duration:
`max(increment, roundUp(total, 15))`. -/
def roundedTotal (totalMinutes : ℤ) : ℤ :=
  max SLOT_INCREMENT_MINUTES (roundUpToIncrement totalMinutes SLOT_INCREMENT_MINUTES)

/-- The source's internal rounding of the minimum chunk length. -/
def roundedMinChunk (minChunkMinutes : Option ℤ) : ℤ :=
  max SLOT_INCREMENT_MINUTES
    (roundUpToIncrement (minChunkMinutes.getD DEFAULT_MIN_CHUNK_MINUTES)
      SLOT_INCREMENT_MINUTES)

/-- The per-event buffering step of `computeBusyIntervals`. -/
def bufferEvent (bufferMinutes : ℤ) (event : CalendarEvent) : Option BusyInterval :=
  match parseEventDate event.start, parseEventDate event.stop with
  | some s, some e =>
      some ⟨addMinutes s (-bufferMinutes), addMinutes e bufferMinutes⟩
  | _, _ => none

/-- The conditions the amended C5 claim asserts are necessary for an
overlap commit.  `slotMinutes` is the rounded slot length
`max(15, round(len))`; the per-task cap applies the same 15-minute floor
to `floor(fraction × sanitized estimate)`. -/
def overlapCommitNecessary (cfg : OverlapConfig) (capture : Capture)
    (conflicts : List ConflictSummary) (slot : Slot) (capturePriority : ℚ)
    (usedMinutes : ℤ) (commit : OverlapCommit) : Prop :=
  cfg.enabled = true ∧
    conflicts ≠ [] ∧
    canCaptureOverlap capture = true ∧
    (∀ cap ∈ commit.conflictingCaptures, canCaptureOverlap cap = true) ∧
    (conflicts.length : ℤ) + 1 ≤ cfg.maxConcurrency ∧
    commit.slotMinutes =
      max SLOT_INCREMENT_MINUTES (jsRoundDiv (slot.stop - slot.start) msPerMin) ∧
    commit.slotMinutes ≤
      max SLOT_INCREMENT_MINUTES
        ⌊(sanitizedEstimatedMinutes capture : ℚ) * cfg.perTaskOverlapFraction⌋ ∧
    usedMinutes + commit.slotMinutes ≤ cfg.dailyBudgetMinutes ∧
    cfg.softCostPerMinute * (commit.slotMinutes : ℚ) <
      capturePriority / ((max 1 (sanitizedEstimatedMinutes capture) : ℤ) : ℚ) *
        (commit.slotMinutes : ℚ)

/-- Modelled from the spec: a concrete overlap configuration (flag on,
concurrency 3, per-task fraction 1, daily budget 120 min, zero soft
cost) used for the C5 scenario rows. -/
def cfgOverlapCex : OverlapConfig := ⟨true, 3, 1, 120, 0⟩

/-- The C5 target row: a 5-minute capture with no overlap restrictions. -/
def overlapTargetCex : Capture := { emptyCapture with estimated_minutes := some 5 }

/-- The C5 co-scheduled row: another unrestricted capture. -/
def overlapOtherCex : Capture := { emptyCapture with id := "cap-2" }

/-- C1 counterexample: at the scenario's inputs the normalizer does not
produce the claimed `window_start = 2025-11-22T04:00:00Z`
(`1763784000000` ms) nor the claimed `window_end = 2025-11-22T13:30:00Z`
(`1763818200000` ms). -/
theorem normalizeRoutineCapture_scenario1_claimed_values_false :
    (normalizeRoutineCapture chicagoNov2025 refNowC1 sleepCaptureC1).window_start ≠
        JsDateStr.valid 1763784000000 ∧
      (normalizeRoutineCapture chicagoNov2025 refNowC1 sleepCaptureC1).window_end ≠
        JsDateStr.valid 1763818200000 := by
  decide

/-- C1 (amended): for the capture with `task_type_hint=routine.sleep`,
`time_pref_day=tomorrow`, timezone America/Chicago and
`referenceNow = 2025-11-21T16:46:00Z`, `normalizeRoutineCapture` yields
`constraint_type = "window"`, `cannot_overlap = true`,
`window_start = 2025-11-23T04:00:00Z` (`1763870400000` ms; 22:00 CST of
the base date Nov 22) and `window_end = 2025-11-24T13:30:00Z`
(`1763991000000` ms; 07:30 CST of Nov 24 — `buildZonedDateTime`'s
day-offset rule advances an extra day because the base+1 reference's
local time, 10:46, is past 07:30). -/
theorem normalizeRoutineCapture_scenario1_actual :
    (normalizeRoutineCapture chicagoNov2025 refNowC1 sleepCaptureC1).constraint_type =
        some "window" ∧
      (normalizeRoutineCapture chicagoNov2025 refNowC1 sleepCaptureC1).cannot_overlap =
        some true ∧
      (normalizeRoutineCapture chicagoNov2025 refNowC1 sleepCaptureC1).window_start =
        JsDateStr.valid 1763870400000 ∧
      (normalizeRoutineCapture chicagoNov2025 refNowC1 sleepCaptureC1).window_end =
        JsDateStr.valid 1763991000000 := by
  decide

/-- The five possible outputs of `normalizeConstraintType`. -/
theorem normalizeConstraintType_cases (v : Option String) :
    normalizeConstraintType v = "flexible" ∨ normalizeConstraintType v = "deadline_time" ∨
      normalizeConstraintType v = "deadline_date" ∨
      normalizeConstraintType v = "start_time" ∨ normalizeConstraintType v = "window" := by
  rcases v with _ | v
  · left; rfl
  · simp only [normalizeConstraintType]
    split_ifs with h1 h2
    · rcases h1 with h | h | h | h <;> subst h <;> tauto
    · tauto
    · tauto

/-- A truthiness guard before `parseIsoDate` is redundant: `null` parses
to `null` anyway. -/
theorem truthy_guard_parse (v : JsDateStr) :
    (if v.truthy then parseIsoDate v else none) = parseIsoDate v := by
  cases v <;> rfl

/-- Round-trip of the `deadline_date` strategy's
`computeDateDeadline(...)?.toISOString() ?? null` wrapping. -/
theorem truthy_guard_parse_opt (o : Option ℤ) :
    (if (match o with | some t => JsDateStr.valid t | none => JsDateStr.jnull).truthy then
       parseIsoDate (match o with | some t => JsDateStr.valid t | none => JsDateStr.jnull)
     else none) = o := by
  cases o <;> rfl

/-- C3 (amended): `resolveDeadlineFromCapture` follows the precedence
`deadline_at` > normalized-kind rule > `null`; the `window` kind's rule
reads `constraint_end`, and `window_end` is never consulted (changing it
never changes the result). -/
theorem resolveDeadlineFromCapture_precedence (c : Capture) (offsetMinutes : ℤ)
    (w : JsDateStr) :
    resolveDeadlineFromCapture c offsetMinutes = resolveDeadlineSpec c offsetMinutes ∧
      resolveDeadlineFromCapture { c with window_end := w } offsetMinutes =
        resolveDeadlineFromCapture c offsetMinutes := by
  constructor
  · unfold resolveDeadlineFromCapture resolveDeadlineSpec
    by_cases hT : c.deadline_at.truthy
    · simp [hT]
    · simp only [Bool.not_eq_true] at hT
      rcases normalizeConstraintType_cases c.constraint_type with h | h | h | h | h <;>
        rw [h] <;>
        simp [hT, deadlineRules, truthy_guard_parse, truthy_guard_parse_opt] <;>
        first
        | rfl
        | (cases computeDateDeadline c.constraint_date offsetMinutes <;> rfl)
  · rcases normalizeConstraintType_cases c.constraint_type with h | h | h | h | h <;>
      simp [resolveDeadlineFromCapture, h, deadlineRules]

/-- C3 counterexample: a capture with no `deadline_at`, no applicable
constraint rule, but a set `window_end` resolves to `null`, not to
`window_end` — the claimed `window_end` fallback does not exist in
`resolveDeadlineFromCapture`. -/
theorem resolveDeadlineFromCapture_no_window_end_fallback :
    windowEndOnlyCapture.deadline_at = JsDateStr.jnull ∧
      windowEndOnlyCapture.window_end = JsDateStr.valid 1000 ∧
      resolveDeadlineFromCapture windowEndOnlyCapture 0 = none := by
  decide

/-- C4 (amended): `computeSchedulingPlan` coincides with the disjoint
dispatch `computeSchedulingPlanSpec` — in particular the deadline kinds
produce mode `deadline` (not `flexible`), and the fall-through branches
of the source cascade can only ever land on the flexible plan. -/
theorem computeSchedulingPlan_eq_spec (c : Capture)
    (durationMinutes offsetMinutes referenceNow : ℤ) :
    computeSchedulingPlan c durationMinutes offsetMinutes referenceNow =
      computeSchedulingPlanSpec c durationMinutes offsetMinutes referenceNow := by
  unfold computeSchedulingPlan computeSchedulingPlanSpec
  rcases normalizeConstraintType_cases c.constraint_type with h | h | h | h | h <;>
    rw [h] <;> simp

/-- C4 counterexample: a capture whose kind is neither `start_time` nor
`window` need not get mode `flexible` — a deadline capture gets mode
`deadline`, refuting the claim's "in every remaining case it returns
mode 'flexible'". -/
theorem computeSchedulingPlan_deadline_not_flexible :
    (computeSchedulingPlan deadlineModeCapture 60 0 0).mode = PlanMode.deadline ∧
      PlanMode.deadline ≠ PlanMode.flexible := by
  decide

/-- C10: `parsePreferredSlot` returns `null` exactly when the start ISO
string does not parse, and any returned slot has its end strictly after
its start, for every `endIso` (absent, unparseable, or not after the
start) and every `fallbackMinutes`. -/
theorem parsePreferredSlot_spec (startIso : JsDateStr) (endIso : Option JsDateStr)
    (fallbackMinutes : ℤ) :
    (parsePreferredSlot startIso endIso fallbackMinutes = none ↔
        parseIsoDate startIso = none) ∧
      (∀ s, parsePreferredSlot startIso endIso fallbackMinutes = some s →
        s.start < s.stop) := by
  constructor
  · cases startIso <;> simp [parsePreferredSlot, parseIsoDate]
  · intro s hs
    cases startIso with
    | jnull => simp [parsePreferredSlot, parseIsoDate] at hs
    | invalid => simp [parsePreferredSlot, parseIsoDate] at hs
    | valid t =>
        have h5 : (5 : ℤ) ≤ max fallbackMinutes 5 := le_max_right _ _
        rcases endIso with _ | e
        · simp only [parsePreferredSlot, parseIsoDate, Option.some.injEq] at hs
          subst hs
          dsimp only [addMinutes, msPerMin]
          split_ifs with hle <;> omega
        · cases e <;>
            · simp only [parsePreferredSlot, parseIsoDate, Option.some.injEq] at hs
              subst hs
              dsimp only [addMinutes, msPerMin]
              split_ifs with hle <;> omega

/-- C10 witness: at `startIso` denoting instant 0 with no `endIso` and a
30-minute fallback, the parsed slot is `[0, 1800000)` and its end is
strictly after its start. -/
theorem parsePreferredSlot_spec_witness :
    parsePreferredSlot (JsDateStr.valid 0) none 30 = some ⟨0, 1800000⟩ ∧
      (Slot.mk 0 1800000).start < (Slot.mk 0 1800000).stop :=
  ⟨by decide, (parsePreferredSlot_spec (JsDateStr.valid 0) none 30).2 ⟨0, 1800000⟩ (by decide)⟩

/-- Adding one to an in-range entry raises a list's sum by one. -/
theorem sum_set_getD_add_one :
    ∀ (l : List ℤ) (i : ℕ), i < l.length →
      (l.set i (l.getD i 0 + 1)).sum = l.sum + 1 := by
  intro l
  induction l with
  | nil => intro i h; simp at h
  | cons a t ih =>
      intro i h
      cases i with
      | zero => simp [List.set, List.getD]; ring
      | succ j =>
          simp only [List.set, List.getD_cons_succ, List.sum_cons]
          rw [ih j (by simpa using h)]
          ring

/-- `distributeRemainder` preserves the list length. -/
theorem distributeRemainder_length (r : ℕ) :
    ∀ (l : List ℤ) (cursor : ℕ), (distributeRemainder l cursor r).length = l.length := by
  induction r with
  | zero => intro l cursor; rfl
  | succ r ih =>
      intro l cursor
      rw [distributeRemainder, ih]
      exact List.length_set ..

/-- `distributeRemainder` adds exactly the remainder to the sum. -/
theorem distributeRemainder_sum (r : ℕ) :
    ∀ (l : List ℤ) (cursor : ℕ), l ≠ [] →
      (distributeRemainder l cursor r).sum = l.sum + r := by
  induction r with
  | zero => intro l cursor _; simp [distributeRemainder]
  | succ r ih =>
      intro l cursor hl
      have hlen : 0 < l.length := List.length_pos.mpr hl
      have hi : cursor % l.length < l.length := Nat.mod_lt _ hlen
      rw [distributeRemainder]
      have hne : l.set (cursor % l.length) (l.getD (cursor % l.length) 0 + 1) ≠ [] := by
        intro hc
        have := List.length_set l (cursor % l.length) (l.getD (cursor % l.length) 0 + 1)
        rw [hc] at this
        simp at this
        omega
      rw [ih _ _ hne, sum_set_getD_add_one l _ hi]
      push_cast
      ring

/-- `distributeRemainder` never lowers an entry below a common lower
bound. -/
theorem distributeRemainder_lb (m : ℤ) (r : ℕ) :
    ∀ (l : List ℤ) (cursor : ℕ), l ≠ [] → (∀ x ∈ l, m ≤ x) →
      ∀ x ∈ distributeRemainder l cursor r, m ≤ x := by
  induction r with
  | zero => intro l cursor _ h; simpa [distributeRemainder] using h
  | succ r ih =>
      intro l cursor hl h x hx
      have hlen : 0 < l.length := List.length_pos.mpr hl
      have hi : cursor % l.length < l.length := Nat.mod_lt _ hlen
      rw [distributeRemainder] at hx
      have hne : l.set (cursor % l.length) (l.getD (cursor % l.length) 0 + 1) ≠ [] := by
        intro hc
        have := List.length_set l (cursor % l.length) (l.getD (cursor % l.length) 0 + 1)
        rw [hc] at this
        simp at this
        omega
      refine ih _ _ hne ?_ x hx
      intro y hy
      rcases List.mem_or_eq_of_mem_set hy with hmem | rfl
      · exact h y hmem
      · have hgm : l.getD (cursor % l.length) 0 ∈ l := by
          rw [List.getD_eq_getElem l 0 hi]
          exact List.getElem_mem hi
        have := h _ hgm
        omega

/-- The shrink loop keeps the chunk count in `[1, c]` and stops only at
count 1 or with the per-chunk base at least the minimum. -/
theorem shrinkChunkCount_spec (T p : ℤ) :
    ∀ (fuel : ℕ) (c : ℤ), 1 ≤ c → c ≤ (fuel : ℤ) + 1 →
      1 ≤ shrinkChunkCount T p fuel c ∧ shrinkChunkCount T p fuel c ≤ c ∧
        (shrinkChunkCount T p fuel c = 1 ∨ p ≤ T / shrinkChunkCount T p fuel c) := by
  intro fuel
  induction fuel with
  | zero =>
      intro c h1 h2
      have : c = 1 := by omega
      subst this
      simp [shrinkChunkCount]
  | succ fuel ih =>
      intro c h1 h2
      rw [shrinkChunkCount]
      split_ifs with hcond
      · obtain ⟨ha, hb, hd⟩ := ih (c - 1) (by omega) (by omega)
        exact ⟨ha, by omega, hd⟩
      · push_neg at hcond
        by_cases hc : 1 < c
        · exact ⟨h1, le_refl c, Or.inr (hcond hc)⟩
        · exact ⟨h1, le_refl c, Or.inl (by omega)⟩

/-- Scaling every entry scales the sum. -/
theorem sum_map_mul_const (l : List ℤ) (k : ℤ) :
    (l.map (fun v => v * k)).sum = l.sum * k := by
  induction l with
  | nil => simp
  | cons a t ih => simp [ih, add_mul]

/-- The multi-chunk tail produces a non-empty list of increments summing
to `totalIncrements`, each at least `minChunkIncrements`, of length at
most `cappedChunks`. -/
theorem chunkSplit_spec (TI MI TGI capped : ℤ) (hMI : 1 ≤ MI) (hTI : 2 * MI ≤ TI)
    (hcap : 2 ≤ capped) :
    chunkSplit TI MI TGI capped ≠ [] ∧
      (chunkSplit TI MI TGI capped).sum = TI ∧
      (∀ x ∈ chunkSplit TI MI TGI capped, MI ≤ x) ∧
      ((chunkSplit TI MI TGI capped).length : ℤ) ≤ capped := by
  unfold chunkSplit
  dsimp only
  set rough := jsCeilDiv TI TGI with hrough
  set c0 := max 1 (min capped rough) with hc0
  have hc0_1 : 1 ≤ c0 := le_max_left _ _
  have hc0_cap : c0 ≤ capped := max_le (by omega) (min_le_left _ _)
  obtain ⟨hcnt1, hcnt_le, hdisj⟩ :=
    shrinkChunkCount_spec TI MI c0.toNat c0 hc0_1 (by omega)
  set count := shrinkChunkCount TI MI c0.toNat c0 with hcount
  have hbase_ge : MI ≤ TI / count := by
    rcases hdisj with h1 | h2
    · rw [h1, Int.ediv_one]; omega
    · exact h2
  set base := TI / count with hbase
  have hrm : TI - base * count = TI % count := by
    rw [hbase, Int.emod_def, mul_comm]
  have hrem_nonneg : 0 ≤ TI - base * count := by
    rw [hrm]; exact Int.emod_nonneg TI (by omega)
  have hrem_lt : TI - base * count < count := by
    rw [hrm]; exact Int.emod_lt_of_pos TI (by omega)
  have hmap : (List.replicate count.toNat base).map (fun v => max v MI) =
      List.replicate count.toNat base := by
    rw [List.map_replicate]
    congr 1
    exact max_eq_left hbase_ge
  rw [hmap]
  have hne : List.replicate count.toNat base ≠ [] := by
    simp only [ne_eq, List.replicate_eq_nil_iff]
    omega
  have hlenrep : (List.replicate count.toNat base).length = count.toNat :=
    List.length_replicate ..
  refine ⟨?_, ?_, ?_, ?_⟩
  · intro hc
    have hl := distributeRemainder_length (TI - base * count).toNat
      (List.replicate count.toNat base) 0
    rw [hc, hlenrep] at hl
    simp at hl
    omega
  · rw [distributeRemainder_sum _ _ _ hne]
    have hsum : (List.replicate count.toNat base).sum = (count.toNat : ℤ) * base := by
      simp [List.sum_replicate, nsmul_eq_mul]
    rw [hsum]
    have h1 : (count.toNat : ℤ) = count := Int.toNat_of_nonneg (by omega)
    have h2 : ((TI - base * count).toNat : ℤ) = TI - base * count :=
      Int.toNat_of_nonneg hrem_nonneg
    rw [h1, h2]
    have hcomm : count * base = base * count := mul_comm _ _
    linarith
  · refine distributeRemainder_lb MI _ _ _ hne ?_
    intro x hx
    rw [List.eq_of_mem_replicate hx]
    exact hbase_ge
  · rw [distributeRemainder_length, hlenrep]
    omega

/-- `roundUpToIncrement` at the 15-minute increment, unfolded. -/
theorem roundUpToIncrement_15 (v : ℤ) :
    roundUpToIncrement v SLOT_INCREMENT_MINUTES = -((-v) / 15) * 15 := by
  unfold roundUpToIncrement jsCeilDiv SLOT_INCREMENT_MINUTES
  norm_num

/-- Arithmetic facts about the internal rounded total: it is at least 15,
its increment count times 15 recovers it, and for positive inputs the
outer `max` is redundant. -/
theorem roundedTotal_arith (v : ℤ) :
    15 ≤ roundedTotal v ∧
      max 1 (jsCeilDiv (roundedTotal v) SLOT_INCREMENT_MINUTES) * 15 = roundedTotal v ∧
      (1 ≤ v → roundedTotal v = roundUpToIncrement v SLOT_INCREMENT_MINUTES) := by
  unfold roundedTotal
  rw [roundUpToIncrement_15]
  unfold jsCeilDiv SLOT_INCREMENT_MINUTES
  omega

/-- C2 (amended): `generateChunkDurations` always returns a non-empty
list summing to the rounded total (`max(15, roundUp(total, 15))`, which
equals `roundUp(total, 15)` whenever the requested total is positive);
every chunk is at least `min(rounded minChunk, rounded total)` — a lone
chunk may be smaller than the rounded minimum when the total itself is —
the chunk count never exceeds a positive integer `maxSplits`, and with
splitting disallowed the result is exactly the singleton rounded total.
Proved for every value of the target-chunk configuration constant. -/
theorem generateChunkDurations_spec (targetChunkMinutes totalMinutes : ℤ)
    (minChunkMinutes maxSplits : Option ℤ) (allowSplitting : Bool) :
    generateChunkDurations targetChunkMinutes totalMinutes minChunkMinutes maxSplits
        allowSplitting ≠ [] ∧
      (generateChunkDurations targetChunkMinutes totalMinutes minChunkMinutes maxSplits
          allowSplitting).sum = roundedTotal totalMinutes ∧
      (1 ≤ totalMinutes →
        (generateChunkDurations targetChunkMinutes totalMinutes minChunkMinutes maxSplits
            allowSplitting).sum =
          roundUpToIncrement totalMinutes SLOT_INCREMENT_MINUTES) ∧
      (∀ x ∈ generateChunkDurations targetChunkMinutes totalMinutes minChunkMinutes maxSplits
          allowSplitting,
        min (roundedMinChunk minChunkMinutes) (roundedTotal totalMinutes) ≤ x) ∧
      (∀ k, maxSplits = some k → 1 ≤ k →
        ((generateChunkDurations targetChunkMinutes totalMinutes minChunkMinutes maxSplits
            allowSplitting).length : ℤ) ≤ k) ∧
      (allowSplitting = false →
        generateChunkDurations targetChunkMinutes totalMinutes minChunkMinutes maxSplits
            allowSplitting = [roundedTotal totalMinutes]) := by
  obtain ⟨hT_ge, hT_mul, hT_pos⟩ := roundedTotal_arith totalMinutes
  obtain ⟨hM_ge, hM_mul, -⟩ :=
    roundedTotal_arith (minChunkMinutes.getD DEFAULT_MIN_CHUNK_MINUTES)
  unfold generateChunkDurations
  dsimp only
  set T := max SLOT_INCREMENT_MINUTES
    (roundUpToIncrement totalMinutes SLOT_INCREMENT_MINUTES) with hTdef
  set MC := max SLOT_INCREMENT_MINUTES
    (roundUpToIncrement (minChunkMinutes.getD DEFAULT_MIN_CHUNK_MINUTES)
      SLOT_INCREMENT_MINUTES) with hMCdef
  have hTRT : roundedTotal totalMinutes = T := rfl
  have hMRT : roundedMinChunk minChunkMinutes = MC := rfl
  rw [hTRT, hMRT]
  have hT_pos' : 1 ≤ totalMinutes →
      T = roundUpToIncrement totalMinutes SLOT_INCREMENT_MINUTES :=
    fun h => hTRT.symm.trans (hT_pos h)
  have hT_mul' : max 1 (jsCeilDiv T SLOT_INCREMENT_MINUTES) * 15 = T :=
    hTRT ▸ hT_mul
  have hM_mul' : max 1 (jsCeilDiv MC SLOT_INCREMENT_MINUTES) * 15 = MC := by
    have : roundedTotal (minChunkMinutes.getD DEFAULT_MIN_CHUNK_MINUTES) = MC := rfl
    rw [this] at hM_mul
    exact hM_mul
  set TI := max 1 (jsCeilDiv T SLOT_INCREMENT_MINUTES) with hTIdef
  set MI := max 1 (jsCeilDiv MC SLOT_INCREMENT_MINUTES) with hMIdef
  have hTI1 : 1 ≤ TI := le_max_left _ _
  have hMI1 : 1 ≤ MI := le_max_left _ _
  set TGI := max MI (jsCeilDiv targetChunkMinutes SLOT_INCREMENT_MINUTES) with hTGIdef
  set MFD := TI / MI with hMFDdef
  set capped := (match maxSplits with
    | some k => if 0 < k then min MFD (max 1 k) else MFD
    | none => MFD) with hcapdef
  split_ifs with hSplit hMFD1 hCap1
  · exact ⟨by simp, by simp, fun h => by simpa using hT_pos' h,
      fun x hx => by simp at hx; subst hx; exact min_le_right _ _,
      fun k _ hk1 => by simpa using hk1,
      fun _ => rfl⟩
  · exact ⟨by simp, by simp, fun h => by simpa using hT_pos' h,
      fun x hx => by simp at hx; subst hx; exact min_le_right _ _,
      fun k _ hk1 => by simpa using hk1,
      fun hf => by simp [hf] at hSplit⟩
  · exact ⟨by simp, by simp, fun h => by simpa using hT_pos' h,
      fun x hx => by simp at hx; subst hx; exact min_le_right _ _,
      fun k _ hk1 => by simpa using hk1,
      fun hf => by simp [hf] at hSplit⟩
  · have hMFD2 : 2 ≤ MFD := by
      have h := not_le.mp hMFD1
      linarith
    have hMIpos : (0 : ℤ) < MI := by omega
    have hTI2 : 2 * MI ≤ TI := (Int.le_ediv_iff_mul_le hMIpos).mp hMFD2
    have hCap2 : 2 ≤ capped := by
      have h := not_le.mp hCap1
      linarith
    obtain ⟨hne, hsum, hlb, hlen⟩ := chunkSplit_spec TI MI TGI capped hMI1 hTI2 hCap2
    have hmapsum :
        ((chunkSplit TI MI TGI capped).map (fun v => v * SLOT_INCREMENT_MINUTES)).sum
          = T := by
      have h15 : ∀ v : ℤ, v * SLOT_INCREMENT_MINUTES = v * 15 := fun v => rfl
      rw [sum_map_mul_const, hsum]
      exact hT_mul'
    refine ⟨by simpa using hne, hmapsum, fun h => by rw [hmapsum]; exact hT_pos' h, ?_, ?_,
      fun hf => by simp [hf] at hSplit⟩
    · intro x hx
      simp only [List.mem_map] at hx
      obtain ⟨v, hv, rfl⟩ := hx
      have h1 : MI ≤ v := hlb v hv
      have h2 : MI * SLOT_INCREMENT_MINUTES ≤ v * SLOT_INCREMENT_MINUTES :=
        mul_le_mul_of_nonneg_right h1 (by norm_num [SLOT_INCREMENT_MINUTES])
      have h3 : MI * SLOT_INCREMENT_MINUTES = MC := hM_mul'
      have h4 : min MC T ≤ MC := min_le_left _ _
      linarith
    · intro k hk hk1
      subst hk
      have hck : capped = if 0 < k then min MFD (max 1 k) else MFD := hcapdef
      rw [if_pos (by omega)] at hck
      have hcapk : capped ≤ k := by
        rw [hck]
        exact (min_le_right _ _).trans (by omega)
      rw [List.length_map]
      linarith

/-- C2 counterexample: with a requested total of 15 minutes and a minimum
chunk of 30 minutes (splitting allowed), the function returns the single
chunk `[15]`, which is smaller than the rounded `minChunkMinutes` — the
claim's "every chunk is at least the (rounded) minChunkMinutes" fails
whenever the rounded total is below the rounded minimum. -/
theorem generateChunkDurations_minChunk_violated :
    generateChunkDurations TARGET_CHUNK_MINUTES 15 (some 30) none true = [15] ∧
      roundedMinChunk (some 30) = 30 ∧ ¬ ((30 : ℤ) ≤ 15) := by
  decide

/-- C2 witness: for total 120, min chunk 30, max splits 2, the result
([60, 60]) sums to the 15-minute rounding of 120, each chunk clears the
minimum, and the count respects the cap. -/
theorem generateChunkDurations_spec_witness :
    (1 : ℤ) ≤ 120 ∧
      (generateChunkDurations 50 120 (some 30) (some 2) true).sum =
        roundUpToIncrement 120 SLOT_INCREMENT_MINUTES ∧
      min (roundedMinChunk (some 30)) (roundedTotal 120) ≤ 60 ∧
      ((generateChunkDurations 50 120 (some 30) (some 2) true).length : ℤ) ≤ 2 := by
  have h := generateChunkDurations_spec 50 120 (some 30) (some 2) true
  exact ⟨by norm_num, h.2.2.1 (by norm_num), h.2.2.2.1 60 (by decide),
    h.2.2.2.2.1 2 rfl (by norm_num)⟩

/-- The chunk-emitting loop, started strictly before the slot end, yields
either nothing or a gap-free run of non-empty chunks that starts at the
cursor and stays inside the slot. -/
theorem buildChunkLoop_spec (opts : ChunkOpts) (slotEnd : ℤ) :
    ∀ (ds : List ℤ) (cursor : ℤ), cursor < slotEnd →
      buildChunkLoop opts slotEnd cursor ds = [] ∨
        ((buildChunkLoop opts slotEnd cursor ds).head?.map (fun r => r.start) =
            some cursor ∧
          List.Chain' (fun a b => a.stop = b.start)
            (buildChunkLoop opts slotEnd cursor ds) ∧
          ∀ r ∈ buildChunkLoop opts slotEnd cursor ds,
            r.start < r.stop ∧ r.stop ≤ slotEnd) := by
  intro ds
  induction ds with
  | nil => intro cursor _; left; rfl
  | cons m rest ih =>
      intro cursor hcur
      cases rest with
      | nil =>
          right
          simp only [buildChunkLoop]
          rw [if_neg (not_le.mpr hcur)]
          refine ⟨rfl, List.chain'_singleton _, ?_⟩
          intro r hr
          simp only [List.mem_singleton] at hr
          subst hr
          exact ⟨hcur, le_refl _⟩
      | cons m2 rest2 =>
          simp only [buildChunkLoop]
          set e0 := addMinutes cursor m with he0
          set e := if slotEnd < e0 then slotEnd else e0 with he
          have heLe : e ≤ slotEnd := by
            rw [he]
            split_ifs with hcase
            · exact le_refl _
            · omega
          by_cases hec : e ≤ cursor
          · left; rw [if_pos hec]
          · rw [if_neg hec]
            right
            push_neg at hec
            by_cases hstop : slotEnd ≤ e
            · rw [if_pos hstop]
              refine ⟨rfl, List.chain'_singleton _, ?_⟩
              intro r hr
              simp only [List.mem_singleton] at hr
              subst hr
              exact ⟨hec, heLe⟩
            · rw [if_neg hstop]
              push_neg at hstop
              rcases ih e hstop with hnil | ⟨hhead, hchain, hbounds⟩
              · rw [hnil]
                refine ⟨rfl, List.chain'_singleton _, ?_⟩
                intro r hr
                simp only [List.mem_singleton] at hr
                subst hr
                exact ⟨hec, heLe⟩
              · refine ⟨rfl, ?_, ?_⟩
                · rw [List.chain'_cons']
                  refine ⟨?_, hchain⟩
                  intro y hy
                  have hystart : y.start = e := by
                    cases hh : (buildChunkLoop opts slotEnd e (m2 :: rest2)).head? with
                    | none => rw [hh] at hy; simp at hy
                    | some z =>
                        rw [hh] at hy
                        simp only [Option.mem_def, Option.some.injEq] at hy
                        subst hy
                        rw [hh] at hhead
                        simpa using hhead
                  simp [mkChunk, hystart]
                · intro r hr
                  rcases List.mem_cons.mp hr with rfl | hr2
                  · exact ⟨hec, heLe⟩
                  · exact hbounds r hr2

/-- `setLastStop` keeps a non-empty list non-empty. -/
theorem setLastStop_ne_nil (E : ℤ) (l : List ChunkRec) (h : l ≠ []) :
    setLastStop E l ≠ [] := by
  cases l with
  | nil => exact absurd rfl h
  | cons c rest => cases rest <;> simp [setLastStop]

/-- `setLastStop` does not change the head's start. -/
theorem setLastStop_head (E : ℤ) (l : List ChunkRec) :
    (setLastStop E l).head?.map (fun r => r.start) = l.head?.map (fun r => r.start) := by
  cases l with
  | nil => rfl
  | cons c rest => cases rest <;> rfl

/-- `setLastStop` forces the last record's end to the slot end. -/
theorem setLastStop_getLast (E : ℤ) :
    ∀ (l : List ChunkRec), l ≠ [] →
      (setLastStop E l).getLast?.map (fun r => r.stop) = some E := by
  intro l
  induction l with
  | nil => intro h; exact absurd rfl h
  | cons c rest ih =>
      intro _
      cases rest with
      | nil => rfl
      | cons d rest2 =>
          have hcons : setLastStop E (c :: d :: rest2) = c :: setLastStop E (d :: rest2) :=
            rfl
          obtain ⟨z, zs, hz⟩ : ∃ z zs, setLastStop E (d :: rest2) = z :: zs := by
            cases rest2 <;> exact ⟨_, _, rfl⟩
          rw [hcons, hz, List.getLast?_cons_cons, ← hz]
          exact ih (by simp)

/-- `setLastStop` preserves the gap-free chain (only the final record's
end changes, which no adjacency constraint mentions). -/
theorem setLastStop_chain (E : ℤ) :
    ∀ (l : List ChunkRec),
      List.Chain' (fun a b => a.stop = b.start) l →
      List.Chain' (fun a b => a.stop = b.start) (setLastStop E l) := by
  intro l
  induction l with
  | nil => intro _; simp [setLastStop]
  | cons c rest ih =>
      intro hc
      cases rest with
      | nil => simp [setLastStop]
      | cons d rest2 =>
          have hcons : setLastStop E (c :: d :: rest2) = c :: setLastStop E (d :: rest2) :=
            rfl
          rw [hcons]
          rw [List.chain'_cons'] at hc ⊢
          refine ⟨?_, ih hc.2⟩
          intro y hy
          have hh := setLastStop_head E (d :: rest2)
          have hystart : y.start = d.start := by
            cases hhd : (setLastStop E (d :: rest2)).head? with
            | none => rw [hhd] at hy; simp at hy
            | some z =>
                rw [hhd] at hy
                simp only [Option.mem_def, Option.some.injEq] at hy
                subst hy
                rw [hhd] at hh
                simpa using hh
          rw [hystart]
          exact hc.1 d (by simp)

/-- `setLastStop` keeps every record non-empty and inside the slot when
the input records were. -/
theorem setLastStop_bounds (E : ℤ) :
    ∀ (l : List ChunkRec), (∀ r ∈ l, r.start < r.stop ∧ r.stop ≤ E) →
      ∀ r ∈ setLastStop E l, r.start < r.stop ∧ r.stop ≤ E := by
  intro l
  induction l with
  | nil => intro _ r hr; simp [setLastStop] at hr
  | cons c rest ih =>
      intro hb r hr
      cases rest with
      | nil =>
          simp only [setLastStop, List.mem_singleton] at hr
          subst hr
          have := hb c (by simp)
          refine ⟨by dsimp; omega, le_refl _⟩
      | cons d rest2 =>
          have hcons : setLastStop E (c :: d :: rest2) = c :: setLastStop E (d :: rest2) :=
            rfl
          rw [hcons] at hr
          rcases List.mem_cons.mp hr with rfl | hr2
          · exact hb r (by simp)
          · exact ih (fun q hq => hb q (List.mem_cons_of_mem c hq)) r hr2

/-- C9: for every capture and every slot whose end is strictly after its
start, `buildChunksForSlot` returns a non-empty list of chunks that
exactly tiles the slot: the first chunk starts at the slot start, the
last ends at the slot end, each chunk starts where the previous one ends,
and every chunk is non-empty. -/
theorem buildChunksForSlot_tiles (capture : Capture) (slot : Slot) (opts : ChunkOpts)
    (h : slot.start < slot.stop) :
    buildChunksForSlot capture slot opts ≠ [] ∧
      (buildChunksForSlot capture slot opts).head?.map (fun r => r.start) =
        some slot.start ∧
      (buildChunksForSlot capture slot opts).getLast?.map (fun r => r.stop) =
        some slot.stop ∧
      List.Chain' (fun a b => a.stop = b.start) (buildChunksForSlot capture slot opts) ∧
      ∀ r ∈ buildChunksForSlot capture slot opts, r.start < r.stop := by
  unfold buildChunksForSlot
  dsimp only
  split_ifs with hd hr
  · refine ⟨by simp, rfl, rfl, List.chain'_singleton _, ?_⟩
    intro r hrm
    simp only [List.mem_singleton] at hrm
    subst hrm
    exact h
  · refine ⟨by simp, rfl, rfl, List.chain'_singleton _, ?_⟩
    intro r hrm
    simp only [List.mem_singleton] at hrm
    subst hrm
    exact h
  · rcases buildChunkLoop_spec opts slot.stop _ slot.start h with hnil | ⟨hhead, hchain, hbounds⟩
    · exact absurd hnil hr
    · refine ⟨setLastStop_ne_nil _ _ hr, ?_, setLastStop_getLast _ _ hr,
        setLastStop_chain _ _ hchain, ?_⟩
      · rw [setLastStop_head]
        exact hhead
      · intro r hrm
        exact (setLastStop_bounds slot.stop _ hbounds r hrm).1

/-- C9 witness: an hour-long slot `[0, 3600000)` for a non-splittable
capture tiles into chunks satisfying every tiling property. -/
theorem buildChunksForSlot_tiles_witness :
    (Slot.mk 0 3600000).start < (Slot.mk 0 3600000).stop ∧
      (buildChunksForSlot emptyCapture ⟨0, 3600000⟩ ⟨none, none, none⟩ ≠ [] ∧
        (buildChunksForSlot emptyCapture ⟨0, 3600000⟩ ⟨none, none, none⟩).head?.map
            (fun r => r.start) = some (Slot.mk 0 3600000).start ∧
        (buildChunksForSlot emptyCapture ⟨0, 3600000⟩ ⟨none, none, none⟩).getLast?.map
            (fun r => r.stop) = some (Slot.mk 0 3600000).stop ∧
        List.Chain' (fun a b => a.stop = b.start)
          (buildChunksForSlot emptyCapture ⟨0, 3600000⟩ ⟨none, none, none⟩) ∧
        ∀ r ∈ buildChunksForSlot emptyCapture ⟨0, 3600000⟩ ⟨none, none, none⟩,
          r.start < r.stop) :=
  ⟨by decide, buildChunksForSlot_tiles emptyCapture ⟨0, 3600000⟩ ⟨none, none, none⟩ (by decide)⟩

/-- `computeBusyIntervals` is the sorted buffered event list. -/
theorem computeBusyIntervals_eq (events : List CalendarEvent) (bufferMinutes : ℤ) :
    computeBusyIntervals events bufferMinutes =
      sortByStart (events.filterMap (bufferEvent bufferMinutes)) := rfl

/-- C8: `computeBusyIntervals` is monotone in the buffer — with a larger
buffer every interval of the smaller buffer is contained in an interval
of the larger (its own event's), so any covered instant stays covered —
and permutation-invariant in the events: permuting the input yields the
same multiset of buffered intervals. -/
theorem computeBusyIntervals_mono_perm (events events' : List CalendarEvent) (b1 b2 : ℤ) :
    (b1 ≤ b2 → ∀ I ∈ computeBusyIntervals events b1,
        ∃ J ∈ computeBusyIntervals events b2, J.start ≤ I.start ∧ I.stop ≤ J.stop) ∧
      (b1 ≤ b2 → ∀ t : ℤ,
        (∃ I ∈ computeBusyIntervals events b1, I.start ≤ t ∧ t < I.stop) →
        ∃ J ∈ computeBusyIntervals events b2, J.start ≤ t ∧ t < J.stop) ∧
      (events.Perm events' →
        (computeBusyIntervals events b1).Perm (computeBusyIntervals events' b1)) := by
  have hmono : b1 ≤ b2 → ∀ I ∈ computeBusyIntervals events b1,
      ∃ J ∈ computeBusyIntervals events b2, J.start ≤ I.start ∧ I.stop ≤ J.stop := by
    intro hb I hI
    rw [computeBusyIntervals_eq, sortByStart] at hI
    have hI' : I ∈ events.filterMap (bufferEvent b1) :=
      (List.perm_insertionSort _ _).mem_iff.mp hI
    obtain ⟨ev, hev, hfe⟩ := List.mem_filterMap.mp hI'
    unfold bufferEvent at hfe
    cases hs : parseEventDate ev.start with
    | none => rw [hs] at hfe; simp at hfe
    | some ss =>
        cases he : parseEventDate ev.stop with
        | none => rw [hs, he] at hfe; simp at hfe
        | some ee =>
            rw [hs, he] at hfe
            simp only [Option.some.injEq] at hfe
            subst hfe
            refine ⟨⟨addMinutes ss (-b2), addMinutes ee b2⟩, ?_, ?_, ?_⟩
            · rw [computeBusyIntervals_eq, sortByStart]
              refine (List.perm_insertionSort _ _).mem_iff.mpr ?_
              refine List.mem_filterMap.mpr ⟨ev, hev, ?_⟩
              unfold bufferEvent
              rw [hs, he]
            · dsimp only [addMinutes, msPerMin]
              omega
            · dsimp only [addMinutes, msPerMin]
              omega
  refine ⟨hmono, ?_, ?_⟩
  · intro hb t ⟨I, hI, h1, h2⟩
    obtain ⟨J, hJ, hj1, hj2⟩ := hmono hb I hI
    exact ⟨J, hJ, by omega, by omega⟩
  · intro hp
    rw [computeBusyIntervals_eq, computeBusyIntervals_eq, sortByStart, sortByStart]
    exact (List.perm_insertionSort _ _).trans
      ((hp.filterMap _).trans (List.perm_insertionSort _ _).symm)

/-- C8 witness: one event `[0, 600000)`; its 5-minute-buffered interval
`[-300000, 900000)` is contained in an interval of the 10-minute run, and
the identity permutation maps the output to itself. -/
theorem computeBusyIntervals_mono_perm_witness :
    (∃ J ∈ computeBusyIntervals [⟨"a", EventDate.dt 0, EventDate.dt 600000⟩] 10,
        J.start ≤ -300000 ∧ (900000 : ℤ) ≤ J.stop) ∧
      (computeBusyIntervals [⟨"a", EventDate.dt 0, EventDate.dt 600000⟩] 5).Perm
        (computeBusyIntervals [⟨"a", EventDate.dt 0, EventDate.dt 600000⟩] 5) := by
  have h := computeBusyIntervals_mono_perm [⟨"a", EventDate.dt 0, EventDate.dt 600000⟩]
    [⟨"a", EventDate.dt 0, EventDate.dt 600000⟩] 5 10
  refine ⟨?_, h.2.2 (List.Perm.refl _)⟩
  have hm := h.1 (by norm_num) ⟨-300000, 900000⟩ (by decide)
  simpa using hm

/-- If the per-conflict loop succeeds, every resolved capture permits
overlap. -/
theorem resolveConflictCaptures_all_can (m : List (String × Capture)) :
    ∀ (cs : List ConflictSummary) (l : List Capture),
      resolveConflictCaptures m cs = some l →
      ∀ cap ∈ l, canCaptureOverlap cap = true := by
  intro cs
  induction cs with
  | nil =>
      intro l h cap hc
      simp only [resolveConflictCaptures, Option.some.injEq] at h
      subst h
      simp at hc
  | cons c rest ih =>
      intro l h cap hc
      obtain ⟨cidStr, cidOpt⟩ := c
      simp only [resolveConflictCaptures] at h
      cases cidOpt with
      | none => simp at h
      | some cid =>
          dsimp only at h
          cases hlk : lookupCapture m cid with
          | none => rw [hlk] at h; simp at h
          | some cap0 =>
              rw [hlk] at h
              dsimp only at h
              split_ifs at h with hcan
              rw [Option.map_eq_some'] at h
              obtain ⟨l', hl', rfl⟩ := h
              rcases List.mem_cons.mp hc with rfl | hc2
              · exact hcan
              · exact ih l' hl' cap hc2

/-- C5 (amended): an overlap commit happens only if the global flag is
on, there is at least one conflict, the target and every co-scheduled
capture pass `canCaptureOverlap`, concurrency stays within
`maxConcurrency`, the rounded slot length is within the (15-minute
floored) per-task fraction cap and the daily budget, and the benefit
strictly exceeds the soft cost. -/
theorem tryScheduleWithOverlap_only_if (cfg : OverlapConfig) (capture : Capture)
    (conflicts : List ConflictSummary) (conflictMap : List (String × Capture))
    (slot : Slot) (capturePriority : ℚ) (usedMinutes : ℤ) (commit : OverlapCommit)
    (h : tryScheduleWithOverlapDecision cfg capture conflicts conflictMap slot
        capturePriority usedMinutes = some commit) :
    overlapCommitNecessary cfg capture conflicts slot capturePriority usedMinutes
      commit := by
  unfold tryScheduleWithOverlapDecision at h
  split_ifs at h with h1 h2 h3 h4 h5
  cases hres : resolveConflictCaptures conflictMap conflicts with
  | none => rw [hres] at h; exact absurd h (by simp)
  | some caps =>
      rw [hres] at h
      dsimp only at h
      split_ifs at h with h6 h7 h8
      simp only [Option.some.injEq] at h
      subst h
      refine ⟨h1, h2, h3, ?_, ?_, rfl, ?_, ?_, ?_⟩
      · exact resolveConflictCaptures_all_can conflictMap conflicts caps hres
      · exact not_lt.mp h5
      · exact not_lt.mp h6
      · exact not_lt.mp h7
      · have := not_le.mp h8
        linarith

/-- C5 counterexample: a commit goes through for a 15-minute slot even
though the slot length (15 min) exceeds
`perTaskOverlapFraction × estimatedMinutes = 1 × 5 = 5` — the code floors
the per-task cap at one 15-minute slot increment, so the claim's "slot
length ≤ perTaskOverlapFraction × estimated minutes" is not necessary
for a commit. -/
theorem tryScheduleWithOverlap_fraction_violated :
    tryScheduleWithOverlapDecision cfgOverlapCex overlapTargetCex
        [⟨"e2", some "cap-2"⟩] [("cap-2", overlapOtherCex)] ⟨0, 900000⟩ 10 0 =
      some ⟨15, [overlapOtherCex]⟩ ∧
      ¬ ((((900000 - 0 : ℤ) / msPerMin : ℤ) : ℚ) ≤
          cfgOverlapCex.perTaskOverlapFraction *
            ((overlapTargetCex.estimated_minutes.getD 30 : ℤ) : ℚ)) := by
  constructor
  · norm_num [tryScheduleWithOverlapDecision, cfgOverlapCex, overlapTargetCex,
      overlapOtherCex, canCaptureOverlap, readCannotOverlapFromNotes, emptyCapture,
      resolveConflictCaptures, lookupCapture, sanitizedEstimatedMinutes, jsRoundDiv,
      msPerMin, SLOT_INCREMENT_MINUTES]
    decide
  · norm_num [cfgOverlapCex, overlapTargetCex, emptyCapture, msPerMin]

/-- C5 witness: the necessary conditions, instantiated at the concrete
commit of the scenario above. -/
theorem tryScheduleWithOverlap_only_if_witness :
    overlapCommitNecessary cfgOverlapCex overlapTargetCex [⟨"e2", some "cap-2"⟩]
      ⟨0, 900000⟩ 10 0 ⟨15, [overlapOtherCex]⟩ :=
  tryScheduleWithOverlap_only_if cfgOverlapCex overlapTargetCex [⟨"e2", some "cap-2"⟩]
    [("cap-2", overlapOtherCex)] ⟨0, 900000⟩ 10 0 ⟨15, [overlapOtherCex]⟩
    (by
      norm_num [tryScheduleWithOverlapDecision, cfgOverlapCex, overlapTargetCex,
        overlapOtherCex, canCaptureOverlap, readCannotOverlapFromNotes, emptyCapture,
        resolveConflictCaptures, lookupCapture, sanitizedEstimatedMinutes, jsRoundDiv,
        msPerMin, SLOT_INCREMENT_MINUTES]
      decide)

/-- `mapSet` followed by lookup of the same key yields the new value. -/
theorem mapGet_mapSet_self (m : List (String × ℤ)) (k : String) (v : ℤ) :
    mapGet (mapSet m k v) k = some v := by
  induction m with
  | nil => simp [mapSet, mapGet]
  | cons p rest ih =>
      by_cases h : p.1 = k <;> simp [mapSet, mapGet, h, ih]

/-- `mapSet` does not disturb other keys. -/
theorem mapGet_mapSet_other (m : List (String × ℤ)) (k k' : String) (v : ℤ)
    (h : k' ≠ k) : mapGet (mapSet m k v) k' = mapGet m k' := by
  have hk' : ¬ k = k' := fun hk => h hk.symm
  induction m with
  | nil => simp [mapSet, mapGet, hk']
  | cons p rest ih =>
      by_cases hp : p.1 = k
      · have hp' : ¬ p.1 = k' := by rw [hp]; exact hk'
        simp only [mapSet, if_pos hp, mapGet]
        rw [if_neg hk', if_neg hp']
      · simp only [mapSet, if_neg hp, mapGet]
        by_cases hp' : p.1 = k' <;> simp [hp', ih]

/-- Unfolding `countStatus` over a cons cell. -/
theorem countStatus_cons (st : OccStatus) (s : OccupancySlot) (rest : List OccupancySlot) :
    countStatus st (s :: rest) =
      countStatus st rest + (if s.status = st then 1 else 0) := by
  simp [countStatus, List.countP_cons]

/-- Unfolding `countDia` over a cons cell. -/
theorem countDia_cons (cid : String) (s : OccupancySlot) (rest : List OccupancySlot) :
    countDia cid (s :: rest) =
      countDia cid rest +
        (if s.status = OccStatus.diaguru ∧ s.captureId = some cid then 1 else 0) := by
  simp [countDia, List.countP_cons]

/-- The cell loop of `analyzeGridWindow`, characterised over any window
and accumulator: each bucket advances by `slotMinutes` per cell of its
status, and the breakdown map tracks per-capture diaguru minutes. -/
theorem statFold_spec (slotMin : ℤ) :
    ∀ (w : List OccupancySlot) (acc : StatsAcc),
      (w.foldl (statStep slotMin) acc).freeM =
          acc.freeM + slotMin * (countStatus OccStatus.free w : ℤ) ∧
        (w.foldl (statStep slotMin) acc).diagM =
          acc.diagM + slotMin * (countStatus OccStatus.diaguru w : ℤ) ∧
        (w.foldl (statStep slotMin) acc).extM =
          acc.extM + slotMin * (countStatus OccStatus.external w : ℤ) ∧
        ∀ cid : String,
          mapGet (w.foldl (statStep slotMin) acc).bd cid =
            (if countDia cid w = 0 then mapGet acc.bd cid
            else
              some ((mapGet acc.bd cid).getD 0 + slotMin * (countDia cid w : ℤ))) := by
  intro w
  induction w with
  | nil => intro acc; simp [countStatus, countDia]
  | cons s rest ih =>
      intro acc
      rw [List.foldl_cons]
      obtain ⟨ihf, ihd, ihe, ihm⟩ := ih (statStep slotMin acc s)
      have hfree := countStatus_cons OccStatus.free s rest
      have hdia := countStatus_cons OccStatus.diaguru s rest
      have hext := countStatus_cons OccStatus.external s rest
      cases hst : s.status with
      | free =>
          refine ⟨?_, ?_, ?_, ?_⟩
          · rw [ihf, hfree, hst, if_pos rfl]
            have hstep : (statStep slotMin acc s).freeM = acc.freeM + slotMin := by
              simp [statStep, hst]
            rw [hstep]
            push_cast
            ring
          · rw [ihd, hdia, hst, if_neg (by simp)]
            have hstep : (statStep slotMin acc s).diagM = acc.diagM := by
              simp [statStep, hst]
            rw [hstep]
            push_cast
            ring
          · rw [ihe, hext, hst, if_neg (by simp)]
            have hstep : (statStep slotMin acc s).extM = acc.extM := by
              simp [statStep, hst]
            rw [hstep]
            push_cast
            ring
          · intro cid
            have hstep : (statStep slotMin acc s).bd = acc.bd := by
              simp [statStep, hst]
            have hcnt : countDia cid (s :: rest) = countDia cid rest := by
              rw [countDia_cons, hst, if_neg (fun h => OccStatus.noConfusion h.1),
                add_zero]
            rw [ihm cid, hstep, hcnt]
      | external =>
          refine ⟨?_, ?_, ?_, ?_⟩
          · rw [ihf, hfree, hst, if_neg (by simp)]
            have hstep : (statStep slotMin acc s).freeM = acc.freeM := by
              simp [statStep, hst]
            rw [hstep]
            push_cast
            ring
          · rw [ihd, hdia, hst, if_neg (by simp)]
            have hstep : (statStep slotMin acc s).diagM = acc.diagM := by
              simp [statStep, hst]
            rw [hstep]
            push_cast
            ring
          · rw [ihe, hext, hst, if_pos rfl]
            have hstep : (statStep slotMin acc s).extM = acc.extM + slotMin := by
              simp [statStep, hst]
            rw [hstep]
            push_cast
            ring
          · intro cid
            have hstep : (statStep slotMin acc s).bd = acc.bd := by
              simp [statStep, hst]
            have hcnt : countDia cid (s :: rest) = countDia cid rest := by
              rw [countDia_cons, hst, if_neg (fun h => OccStatus.noConfusion h.1),
                add_zero]
            rw [ihm cid, hstep, hcnt]
      | diaguru =>
          have hstepf : (statStep slotMin acc s).freeM = acc.freeM := by
            simp [statStep, hst]
          have hstepd : (statStep slotMin acc s).diagM = acc.diagM + slotMin := by
            simp [statStep, hst]
          have hstepe : (statStep slotMin acc s).extM = acc.extM := by
            simp [statStep, hst]
          refine ⟨?_, ?_, ?_, ?_⟩
          · rw [ihf, hfree, hst, if_neg (by simp), hstepf]
            push_cast
            ring
          · rw [ihd, hdia, hst, if_pos rfl, hstepd]
            push_cast
            ring
          · rw [ihe, hext, hst, if_neg (by simp), hstepe]
            push_cast
            ring
          · intro cid
            cases hcid : s.captureId with
            | none =>
                have hstep : (statStep slotMin acc s).bd = acc.bd := by
                  simp [statStep, hst, hcid]
                have hcnt : countDia cid (s :: rest) = countDia cid rest := by
                  rw [countDia_cons, hst, hcid,
                    if_neg (fun h => Option.noConfusion h.2), add_zero]
                rw [ihm cid, hstep, hcnt]
            | some cid0 =>
                by_cases hc : cid0 = cid
                · subst hc
                  have hself : mapGet (statStep slotMin acc s).bd cid0 =
                      some ((mapGet acc.bd cid0).getD 0 + slotMin) := by
                    simp only [statStep, hst, hcid]
                    exact mapGet_mapSet_self _ _ _
                  have hcnt : countDia cid0 (s :: rest) = countDia cid0 rest + 1 := by
                    rw [countDia_cons, hst, hcid,
                      if_pos (show OccStatus.diaguru = OccStatus.diaguru ∧
                        (some cid0 : Option String) = some cid0 from ⟨rfl, rfl⟩)]
                  rw [ihm cid0, hself, hcnt, if_neg (Nat.succ_ne_zero _)]
                  split_ifs with h0
                  · rw [h0]
                    norm_num
                  · simp only [Option.getD_some]
                    congr 1
                    push_cast
                    ring
                · have hother : mapGet (statStep slotMin acc s).bd cid =
                      mapGet acc.bd cid := by
                    simp only [statStep, hst, hcid]
                    exact mapGet_mapSet_other _ _ _ _ (fun hk => hc hk.symm)
                  have hcnt : countDia cid (s :: rest) = countDia cid rest := by
                    rw [countDia_cons, hst, hcid,
                      if_neg (fun h => hc (Option.some.inj h.2)), add_zero]
                  rw [ihm cid, hother, hcnt]

/-- `analyzeGridWindow` reports the window's endpoint instants and
per-status minute totals, with a per-capture breakdown of the diaguru
cells and an external flag tied to the external minutes. -/
theorem analyzeGridWindow_fields (slots : List OccupancySlot) (i size : ℕ)
    (slotMin : ℤ) :
    (analyzeGridWindow slots i size slotMin).slot.start =
        (slots.getD i dummyOccSlot).start ∧
      (analyzeGridWindow slots i size slotMin).slot.stop =
        (slots.getD (i + size - 1) dummyOccSlot).stop ∧
      (analyzeGridWindow slots i size slotMin).stats.freeMinutes =
        slotMin * (countStatus OccStatus.free ((slots.drop i).take size) : ℤ) ∧
      (analyzeGridWindow slots i size slotMin).stats.diaguruMinutes =
        slotMin * (countStatus OccStatus.diaguru ((slots.drop i).take size) : ℤ) ∧
      (analyzeGridWindow slots i size slotMin).stats.externalMinutes =
        slotMin * (countStatus OccStatus.external ((slots.drop i).take size) : ℤ) ∧
      (analyzeGridWindow slots i size slotMin).stats.totalMinutes =
        (analyzeGridWindow slots i size slotMin).stats.freeMinutes +
          (analyzeGridWindow slots i size slotMin).stats.diaguruMinutes +
          (analyzeGridWindow slots i size slotMin).stats.externalMinutes ∧
      (∀ cid : String,
        mapGet (analyzeGridWindow slots i size slotMin).stats.diaguruBreakdown cid =
          (if countDia cid ((slots.drop i).take size) = 0 then none
          else some (slotMin * (countDia cid ((slots.drop i).take size) : ℤ)))) ∧
      (analyzeGridWindow slots i size slotMin).hasExternal =
        decide (0 < (analyzeGridWindow slots i size slotMin).stats.externalMinutes) := by
  obtain ⟨hf, hd, he, hm⟩ :=
    statFold_spec slotMin ((slots.drop i).take size) (StatsAcc.mk 0 0 0 [])
  refine ⟨rfl, rfl, ?_, ?_, ?_, rfl, ?_, rfl⟩
  · simpa [analyzeGridWindow] using hf
  · simpa [analyzeGridWindow] using hd
  · simpa [analyzeGridWindow] using he
  · intro cid
    have := hm cid
    simp only [mapGet, Option.getD_none, zero_add] at this
    simp only [analyzeGridWindow]
    rw [this]

/-- Every candidate produced by the scan loop of
`collectGridWindowCandidates` is the analysis of some run of `needed`
cells that fits in the slot list, starts at or after `rangeStart` and
ends at or before `rangeEnd`. -/
theorem collectLoop_mem (slots : List OccupancySlot) (rangeStart rangeEnd : ℤ)
    (needed : ℕ) (slotMin : ℤ) (limit : Option ℕ) (hn : 1 ≤ needed) :
    ∀ (fuel i accLen : ℕ) (cand : GridWindowCandidate),
      cand ∈ collectLoop slots rangeStart rangeEnd needed slotMin limit
        fuel i accLen →
      ∃ j : ℕ, i ≤ j ∧ j + needed ≤ slots.length ∧
        cand = analyzeGridWindow slots j needed slotMin ∧
        rangeStart ≤ (slots.getD j dummyOccSlot).start ∧
        (slots.getD (j + needed - 1) dummyOccSlot).stop ≤ rangeEnd := by
  intro fuel
  induction fuel with
  | zero =>
      intro i accLen cand h
      simp [collectLoop] at h
  | succ fuel ih =>
      intro i accLen cand h
      simp only [collectLoop] at h
      split_ifs at h with h1 h2 h3 h4 h5
      · simp at h
      · obtain ⟨j, hij, hrest⟩ := ih (i + 1) accLen cand h
        exact ⟨j, by omega, hrest⟩
      · simp at h
      · simp at h
      · rw [List.mem_singleton] at h
        exact ⟨i, le_refl i, by omega, h, not_lt.mp h2, not_lt.mp h4⟩
      · rcases List.mem_cons.mp h with hc | hc
        · exact ⟨i, le_refl i, by omega, hc, not_lt.mp h2, not_lt.mp h4⟩
        · obtain ⟨j, hij, hrest⟩ := ih (i + 1) (accLen + 1) cand hc
          exact ⟨j, by omega, hrest⟩

/-- C7 (corrected): every candidate returned by
`collectGridWindowCandidates` spans `max(1, ceil(duration/slotMinutes))`
consecutive grid cells lying within the requested range, and is
annotated with its free/diaguru/external minute counts and per-capture
breakdown; candidates containing external cells are NOT filtered out —
they are returned with `hasExternal` set. -/
theorem collectGridWindowCandidates_spec (grid : OccupancyGrid)
    (durationMinutes : ℤ) (windowStart windowEnd : Option ℤ)
    (referenceNow : ℤ) (limit : Option ℕ) (cand : GridWindowCandidate)
    (hmem : cand ∈ collectGridWindowCandidates grid durationMinutes
      windowStart windowEnd referenceNow limit) :
    GridCandidateSpec grid durationMinutes windowStart windowEnd referenceNow
      cand := by
  have hn : 1 ≤ gridSlotsNeeded grid durationMinutes := by
    have h1 : (1 : ℤ) ≤ max 1 (jsCeilDiv durationMinutes (max 1 grid.slotMinutes)) :=
      le_max_left _ _
    unfold gridSlotsNeeded
    omega
  simp only [collectGridWindowCandidates] at hmem
  split_ifs at hmem with h1 h2
  · simp at hmem
  · simp at hmem
  · obtain ⟨j, _, hjlen, hcand, hstart, hstop⟩ :=
      collectLoop_mem grid.slots _ _ _ _ limit hn _ _ _ cand hmem
    obtain ⟨s1, s2, s3, s4, s5, s6, s7, s8⟩ :=
      analyzeGridWindow_fields grid.slots j (gridSlotsNeeded grid durationMinutes)
        (max 1 grid.slotMinutes)
    rw [hcand]
    exact ⟨j, hjlen, s1, s2, by rw [s1]; exact hstart, by rw [s2]; exact hstop,
      s3, s4, s5, s6, s7, s8⟩

/-- Concrete run of the candidate characterisation: a one-cell grid with
a single free cell yields exactly that cell's analysis as a candidate. -/
theorem collectGridWindowCandidates_spec_witness :
    analyzeGridWindow [⟨0, 900000, OccStatus.free, none, none⟩] 0 1 15 ∈
        collectGridWindowCandidates
          ⟨0, 900000, 15, [⟨0, 900000, OccStatus.free, none, none⟩]⟩
          15 (none : Option ℤ) (none : Option ℤ) 0 (none : Option ℕ) ∧
      GridCandidateSpec ⟨0, 900000, 15, [⟨0, 900000, OccStatus.free, none, none⟩]⟩
        15 (none : Option ℤ) (none : Option ℤ) 0
        (analyzeGridWindow [⟨0, 900000, OccStatus.free, none, none⟩] 0 1 15) :=
  ⟨by decide, collectGridWindowCandidates_spec _ _ _ _ _ (none : Option ℕ) _
    (by decide)⟩

/-- A window whose only cell is externally occupied is still returned as
a candidate, with 15 external minutes and the external flag set — the
scan does not filter windows containing external occupancy. -/
theorem collectGridWindowCandidates_external_returned :
    ((collectGridWindowCandidates
        ⟨0, 900000, 15, [⟨0, 900000, OccStatus.external, some "evt", none⟩]⟩
        15 (none : Option ℤ) (none : Option ℤ) 0 (none : Option ℕ)).map
      (fun c => (c.stats.externalMinutes, c.hasExternal))) = [(15, true)] := by
  decide

/-- A parsed-or-unparseable (non-null) date string is truthy. -/
theorem JsDateStr.truthy_valid (t : ℤ) : (JsDateStr.valid t).truthy = true := rfl

/-- `a ?? b` is idempotent in its fallback: applying the same fallback
twice changes nothing. -/
theorem JsDateStr.orElse_orElse (a b : JsDateStr) :
    (a.orElse b).orElse b = a.orElse b := by
  cases a <;> cases b <;> rfl

/-- C6: `normalizeRoutineCapture` is idempotent — re-invoking it with the
same timezone and reference instant on its own output yields a capture
with identical fields. -/
theorem normalizeRoutineCapture_idempotent (tz : Timezone) (referenceNow : ℤ)
    (c : Capture) :
    normalizeRoutineCapture tz referenceNow
        (normalizeRoutineCapture tz referenceNow c) =
      normalizeRoutineCapture tz referenceNow c := by
  by_cases hs : (c.task_type_hint = some "routine.sleep" ∨
      c.extraction_kind = some "routine.sleep")
  · rcases Decidable.em (c.manual_touch_at.isSome = true ∨
        c.freeze_until.isSome = true) with hl | hl
    · rcases hl with h | h
      · simp [normalizeRoutineCapture, resolveSleepBaseReference, hs, h,
          JsDateStr.orElse_orElse]
      · simp [normalizeRoutineCapture, resolveSleepBaseReference, hs, h,
          JsDateStr.orElse_orElse]
    · rw [not_or] at hl
      obtain ⟨h1, h2⟩ := hl
      simp only [Bool.not_eq_true] at h1 h2
      simp [normalizeRoutineCapture, resolveSleepBaseReference, hs, h1, h2,
        JsDateStr.orElse_orElse]
  · by_cases hml : (c.task_type_hint = some "routine.meal" ∨
        c.extraction_kind = some "routine.meal")
    · by_cases hw : (¬c.window_start.truthy = true ∨ ¬c.window_end.truthy = true)
      · simp only [Bool.not_eq_true] at hw
        rcases Decidable.em (c.manual_touch_at.isSome = true ∨
            c.freeze_until.isSome = true) with hl | hl
        · rcases hl with h | h <;> rcases hw with hw0 | hw0 <;>
            simp [normalizeRoutineCapture, hs, hml, hw0, JsDateStr.truthy_valid, h]
        · rw [not_or] at hl
          obtain ⟨h1, h2⟩ := hl
          simp only [Bool.not_eq_true] at h1 h2
          rcases hw with hw0 | hw0 <;>
            simp [normalizeRoutineCapture, hs, hml, hw0, JsDateStr.truthy_valid,
              h1, h2]
      · rw [not_or, not_not, not_not] at hw
        obtain ⟨hw1, hw2⟩ := hw
        rcases Decidable.em (c.manual_touch_at.isSome = true ∨
            c.freeze_until.isSome = true) with hl | hl
        · rcases hl with h | h
          · simp [normalizeRoutineCapture, hs, hml, hw1, hw2, h]
          · simp [normalizeRoutineCapture, hs, hml, hw1, hw2, h]
        · rw [not_or] at hl
          obtain ⟨h1, h2⟩ := hl
          simp only [Bool.not_eq_true] at h1 h2
          simp [normalizeRoutineCapture, hs, hml, hw1, hw2, h1, h2]
    · have h1 : normalizeRoutineCapture tz referenceNow c = c := by
        simp [normalizeRoutineCapture, hs, hml]
      rw [h1, h1]

